import Mathlib

/-!
Verification of the two CV-generation scripts of this repository
(tool/update_html_from_dox.py and tool/build_sidebar_cv.py) against their
natural-language specification.  The scripts are shallowly embedded below:
strings are Lean strings (lists of characters), every Python function used
by a claim is translated into an executable Lean definition, and regular
expressions are replaced by equivalent deterministic character scanners
(each scanner is derived from the concrete pattern; the derivations were
checked against the semantics of the Python re module).

Namespace Html models tool/update_html_from_dox.py, namespace Tex models
tool/build_sidebar_cv.py, and the root namespace holds shared string
helpers mirroring Python string/regex primitives.
-/

set_option maxRecDepth 40000

/-- Python whitespace (the class matched by the regex token for spaces and
stripped by str.strip): space, tab, newline, carriage return, vertical tab
and form feed. -/
def isSpaceChar (c : Char) : Bool :=
  c = ' ' || c = '\t' || c = '\n' || c = '\r' || c = '\x0b' || c = '\x0c'

/-- Python word character (ASCII reading of the regex w class). -/
def isWordChar (c : Char) : Bool :=
  c.isAlphanum || c = '_'

/-- Decimal digit, as matched by the regex d class. -/
def isDigitChar (c : Char) : Bool :=
  '0' ≤ c && c ≤ '9'

/-- Python str.strip restricted to the left end. -/
def lstripL (l : List Char) : List Char := l.dropWhile isSpaceChar

/-- Python str.strip restricted to the right end. -/
def rstripL (l : List Char) : List Char := (l.reverse.dropWhile isSpaceChar).reverse

/-- Python str.strip (both ends). -/
def stripL (l : List Char) : List Char := rstripL (lstripL l)

/-- Python str.strip applied to a string. -/
def stripS (s : String) : String := String.mk (stripL s.data)

/-- Python str.strip with the single argument backslash-n (strips newlines
from both ends only). -/
def stripNlL (l : List Char) : List Char :=
  ((l.dropWhile (fun c => c = '\n')).reverse.dropWhile (fun c => c = '\n')).reverse

/-- Substring test: some suffix of l has pat as a prefix.  Models the
Python in operator on strings and anchor-free literal regex search. -/
def occursB (pat l : List Char) : Bool := l.tails.any (fun t => pat.isPrefixOf t)

/-- Lower-casing of every character, modelling Python str.lower on the
ASCII strings the scripts handle. -/
def lowerL (l : List Char) : List Char := l.map Char.toLower

/-- Split at the first occurrence of pat: firstSplit pat l = some (p, r)
means l = p ++ pat ++ r and no occurrence of pat starts before p ends.
This is the leftmost-match semantics of a literal regex search. -/
def firstSplit (pat : List Char) : List Char → Option (List Char × List Char)
  | [] => if pat.isPrefixOf ([] : List Char) then some ([], []) else none
  | c :: l =>
    if pat.isPrefixOf (c :: l) then some ([], (c :: l).drop pat.length)
    else
      match firstSplit pat l with
      | some (p, r) => some (c :: p, r)
      | none => none

/-- Python str.splitlines for newline-terminated text (the scripts only
ever feed it text whose line terminator is a plain newline): a newline
terminates a segment, and a final segment is emitted only if nonempty. -/
def splitLinesGo : List Char → List Char → List (List Char)
  | [], cur => if cur = [] then [] else [cur.reverse]
  | c :: rest, cur =>
    if c = '\n' then cur.reverse :: splitLinesGo rest []
    else splitLinesGo rest (c :: cur)

/-- Python str.splitlines (newline only). -/
def splitLinesL (l : List Char) : List (List Char) := splitLinesGo l []

/-- Python str.split with a one-character separator: always emits the
final segment, even when empty. -/
def splitOnCharGo (sep : Char) : List Char → List Char → List (List Char)
  | [], cur => [cur.reverse]
  | c :: rest, cur =>
    if c = sep then cur.reverse :: splitOnCharGo sep rest []
    else splitOnCharGo sep rest (c :: cur)

/-- Python str.split with a one-character separator. -/
def splitOnCharL (sep : Char) (l : List Char) : List (List Char) := splitOnCharGo sep l []

/-- One pass of re.sub scanning: at each position the step function either
matches (returning the replacement text and the remainder after the match)
or the scanner keeps the character and advances.  Fuel bounds the number
of iterations; every matcher used below consumes at least one character,
so fuel equal to the length of the input is always enough. -/
def rubGo (step : List Char → Option (List Char × List Char)) : Nat → List Char → List Char
  | 0, l => l
  | _ + 1, [] => []
  | f + 1, c :: t =>
    match step (c :: t) with
    | some (rep, rest) => rep ++ rubGo step f rest
    | none => c :: rubGo step f t

/-- re.findall scanning: collect the matches of step from left to right,
resuming after each match, advancing one character on failure. -/
def findPatGo {α : Type} (step : List Char → Option (α × List Char)) :
    Nat → List Char → List α
  | 0, _ => []
  | _ + 1, [] => []
  | f + 1, c :: t =>
    match step (c :: t) with
    | some (a, rest) => a :: findPatGo step f rest
    | none => findPatGo step f t

/-- re.search scanning: return the first match of step, if any. -/
def searchPatGo {α : Type} (step : List Char → Option α) : Nat → List Char → Option α
  | 0, _ => none
  | _ + 1, [] => none
  | f + 1, c :: t =>
    match step (c :: t) with
    | some a => some a
    | none => searchPatGo step f t

/-- re.search over a whole list. -/
def searchPat {α : Type} (step : List Char → Option α) (l : List Char) : Option α :=
  searchPatGo step l.length l

/-- re.split scanning: step recognises a separator at the current position
and returns the remainder after it; segments between separators are
collected, including a final (possibly empty) segment. -/
def splitPatGo (step : List Char → Option (List Char)) : Nat → List Char → List Char → List (List Char)
  | 0, l, cur => [cur.reverse ++ l]
  | _ + 1, [], cur => [cur.reverse]
  | f + 1, c :: t, cur =>
    match step (c :: t) with
    | some rest => cur.reverse :: splitPatGo step f rest []
    | none => splitPatGo step f t (c :: cur)

/-- Python str.replace (all non-overlapping occurrences, left to right). -/
def replaceAllGo (pat rep : List Char) : Nat → List Char → List Char
  | 0, l => l
  | _ + 1, [] => []
  | f + 1, c :: t =>
    if pat.isPrefixOf (c :: t) then rep ++ replaceAllGo pat rep f ((c :: t).drop pat.length)
    else c :: replaceAllGo pat rep f t

/-- Python str.replace. -/
def replaceAllL (pat rep l : List Char) : List Char := replaceAllGo pat rep l.length l

/-- Strip the leading dash of a list item together with the whitespace
following it (the anchored regex sub of a dash and trailing spaces used
throughout both scripts). -/
def stripDashWs (l : List Char) : List Char :=
  match l with
  | '-' :: r => r.dropWhile isSpaceChar
  | _ => l

/-- Anchored sub removing optional whitespace, a dash, and whitespace, as
used for nested work-experience bullets; without a dash the text is
returned unchanged (the regex does not match). -/
def stripLeadWsDash (l : List Char) : List Char :=
  match l.dropWhile isSpaceChar with
  | '-' :: t => t.dropWhile isSpaceChar
  | _ => l

/-- The filtered, stripped dash lines a section body contributes to the
list-item builders of both scripts: lines that are nonempty after
stripping and start with a dash. -/
def dashLines (raw : List Char) : List (List Char) :=
  ((splitLinesL raw).map stripL).filter (fun s => !s.isEmpty && List.isPrefixOf "-".data s)

/-- Parse of the pattern: bold open, a nonempty run without an angle
bracket, bold close with a colon, optional whitespace, and the captured
rest of the line.  Used by the skills and languages builders. -/
def parseBoldColon (l : List Char) : Option (List Char × List Char) :=
  if List.isPrefixOf "<b>".data l then
    let r := l.drop 3
    let cat := r.takeWhile (fun c => c != '<')
    let r2 := r.drop cat.length
    if cat = [] then none
    else if List.isPrefixOf "</b>:".data r2 then
      some (cat, (r2.drop 5).dropWhile isSpaceChar)
    else none
  else none









namespace Html

/-! Model of tool/update_html_from_dox.py. -/

/-- Matcher for one re.sub occurrence of the internal-tag pattern: the
literal tag, a word boundary, then optional whitespace, replaced by
nothing. -/
def internalTagStep (tag : List Char) (l : List Char) : Option (List Char × List Char) :=
  if tag.isPrefixOf l then
    let r := l.drop tag.length
    match r.head? with
    | some c => if isWordChar c then none else some ([], r.dropWhile isSpaceChar)
    | none => some ([], [])
  else none

/-- strip_internal_tags: remove internal open and close tags (keeping the
content), one re.sub per tag. -/
def strip_internal_tagsL (l : List Char) : List Char :=
  let l1 := rubGo (internalTagStep "@internal".data) l.length l
  rubGo (internalTagStep "@endinternal".data) l1.length l1

/-- Body capture boundary of SECTION_PATTERN: the lazily captured body
ends where the next section header or the comment terminator starts. -/
def sectionBodySplit : List Char → Option (List Char × List Char)
  | [] => none
  | c :: t =>
    if List.isPrefixOf "@section".data (c :: t) || List.isPrefixOf "*/".data (c :: t) then
      some ([], c :: t)
    else
      match sectionBodySplit t with
      | some (b, r) => some (c :: b, r)
      | none => none

/-- Matcher for SECTION_PATTERN at the current position: the section
literal, whitespace, a word-character name, whitespace, a title line that
contains at least one further non-whitespace character before its
newline, and then the lazily captured body (see sectionBodySplit).
Returns the raw name and body captures and the remainder where scanning
resumes. -/
def sectionStep (l : List Char) : Option ((List Char × List Char) × List Char) :=
  if List.isPrefixOf "@section".data l then
    let r0 := l.drop 8
    let ws1 := r0.takeWhile isSpaceChar
    let r1 := r0.dropWhile isSpaceChar
    let nm := r1.takeWhile isWordChar
    let r2 := r1.dropWhile isWordChar
    let ws2 := r2.takeWhile isSpaceChar
    let r3 := r2.dropWhile isSpaceChar
    if ws1 = [] ∨ nm = [] ∨ ws2 = [] ∨ r3 = [] then none
    else
      match r3.dropWhile (fun c => c != '\n') with
      | [] => none
      | _ :: bodyRegion =>
        match sectionBodySplit bodyRegion with
        | some (b, rest) => some ((nm, b), rest)
        | none => none
  else none

/-- The raw findall of SECTION_PATTERN over the document. -/
def extractSectionsRaw (l : List Char) : List (List Char × List Char) :=
  findPatGo sectionStep l.length l

/-- extract_sections of the HTML script: the findall pairs with the name
stripped and the body stripped, newline-stripped, and internal-tag
cleaned.  A later pair with the same name shadows an earlier one, exactly
as repeated dict assignment does. -/
def extract_sections (text : String) : List (String × String) :=
  (extractSectionsRaw text.data).map
    (fun nb => (String.mk (stripL nb.1), String.mk (strip_internal_tagsL (stripNlL (stripL nb.2)))))

/-- Dictionary lookup with last-assignment-wins semantics. -/
def sectionsGet (secs : List (String × String)) (k : String) : Option String :=
  (secs.reverse.find? (fun p => p.1 == k)).map (fun p => p.2)

/-- Matcher for the mainpage contact pattern: the mainpage literal,
whitespace, a nonempty header line, a blank line, and the captured
contact line. -/
def mainpageContactStep (l : List Char) : Option (List Char) :=
  if List.isPrefixOf "@mainpage".data l then
    let r0 := l.drop 9
    let ws := r0.takeWhile isSpaceChar
    let r1 := r0.dropWhile isSpaceChar
    if ws = [] || r1 = [] then none
    else
      match r1.dropWhile (fun c => c != '\n') with
      | '\n' :: '\n' :: r3 =>
        let cap := r3.takeWhile (fun c => c != '\n')
        if cap = [] then none else some cap
      | _ => none
  else none

/-- extract_contact_from_mainpage: the captured contact line, stripped,
or the empty string when the pattern does not occur. -/
def extract_contact_from_mainpage (text : String) : String :=
  match searchPat mainpageContactStep text.data with
  | some cap => String.mk (stripL cap)
  | none => ""

/-- Matcher for one re.sub occurrence of an HTML tag (an angle-bracket
open, a nonempty run without a closing bracket, a close), removed. -/
def tagRubStep : List Char → Option (List Char × List Char)
  | '<' :: r =>
    let inner := r.takeWhile (fun c => c != '>')
    if inner = [] then none
    else
      match r.drop inner.length with
      | '>' :: rest => some ([], rest)
      | _ => none
  | _ => none

/-- The phone heuristic: an opening parenthesis, an optional plus sign,
and a digit, anywhere in the token. -/
def phoneAt : List Char → Bool
  | '(' :: '+' :: c :: _ => isDigitChar c
  | '(' :: c :: _ => isDigitChar c
  | _ => false

/-- Occurrence test for the phone heuristic. -/
def phoneTestB (l : List Char) : Bool := l.tails.any phoneAt

/-- The token classes of build_contact_info, in the order its branch
cascade tests them. -/
inductive CKind where
  | email
  | linkedin
  | github
  | onlinecv
  | phone
  | location
deriving DecidableEq

/-- The branch cascade of build_contact_info: an at sign means email,
then a case-insensitive linkedin occurrence, then a github occurrence in
either of the two spellings the code tests, then the online-CV literal,
then the phone heuristic, and otherwise location. -/
def contactKind (p : String) : CKind :=
  if p.data.any (fun c => c = '@') then .email
  else if occursB "linkedin".data (lowerL p.data) then .linkedin
  else if occursB "GitHub".data p.data || occursB "github".data p.data then .github
  else if occursB "Online CV".data p.data then .onlinecv
  else if phoneTestB p.data then .phone
  else .location

/-- The anchored markdown-link sub used to pull a URL out of a token: if
the token starts with the bracketed tag, the captured text runs to the
first closing parenthesis and the rest of the line is dropped; otherwise
the token is returned unchanged. -/
def bracketUrl (tag : String) (p : String) : String :=
  let pat := ("[" ++ tag ++ "](").data
  if pat.isPrefixOf p.data then
    let rest := p.data.drop pat.length
    if rest.any (fun c => c = ')') then
      let cap := rest.takeWhile (fun c => c != ')')
      let after := (rest.drop cap.length).drop 1
      String.mk (cap ++ after.dropWhile (fun c => c != '\n'))
    else p
  else p

/-- Scheme completion applied to extracted profile URLs. -/
def ensureHttp (url : String) : String :=
  if List.isPrefixOf "http".data url.data then url else "https://" ++ url

/-- Digits-and-plus filter for the phone link target. -/
def phoneDigits (p : String) : String :=
  String.mk (p.data.filter (fun c => isDigitChar c || c = '+'))

/-- The list-item markup emitted for one contact token, by class. -/
def contactItem (p : String) : String :=
  match contactKind p with
  | .email =>
      "<li class=\"mb-2\"><i class=\"fas fa-envelope-square fa-fw fa-lg mr-2\"></i><a class=\"resume-link\" href=\"mailto:"
        ++ p ++ "\">" ++ p ++ "</a></li>"
  | .linkedin =>
      "<li class=\"mb-2\"><i class=\"fab fa-linkedin fa-fw fa-lg mr-2\"></i><a class=\"resume-link\" href=\""
        ++ ensureHttp (bracketUrl "LinkedIn" p) ++ "\" target=\"_blank\">LinkedIn</a></li>"
  | .github =>
      "<li class=\"mb-2\"><i class=\"fab fa-github fa-fw fa-lg mr-2\"></i><a class=\"resume-link\" href=\""
        ++ ensureHttp (bracketUrl "GitHub" p) ++ "\" target=\"_blank\">GitHub</a></li>"
  | .onlinecv =>
      "<li class=\"mb-2\"><i class=\"fas fa-external-link-alt fa-fw fa-lg mr-2\"></i><a class=\"resume-link\" href=\""
        ++ ensureHttp (bracketUrl "Online CV" p) ++ "\" target=\"_blank\">Online CV</a></li>"
  | .phone =>
      "<li class=\"mb-2\"><i class=\"fas fa-phone-square fa-fw fa-lg mr-2\"></i><a class=\"resume-link\" href=\"tel:"
        ++ phoneDigits p ++ "\">" ++ p ++ "</a></li>"
  | .location =>
      "<li class=\"mb-0\"><i class=\"fas fa-map-marker-alt fa-fw fa-lg mr-2\"></i>" ++ p ++ "</li>"

/-- The sort key of build_contact_info: the first icon-class entry of the
order dictionary occurring in the rendered item, else ninety-nine. -/
def orderKey (x : String) : Nat :=
  if occursB "fa-phone-square".data x.data then 0
  else if occursB "fa-envelope-square".data x.data then 1
  else if occursB "fa-linkedin".data x.data then 2
  else if occursB "fa-github".data x.data then 3
  else if occursB "fa-external-link-alt".data x.data then 4
  else if occursB "fa-map-marker-alt".data x.data then 5
  else 99

/-- Stable insertion by orderKey: an element goes before the first
element whose key exceeds its own, preserving source order among equal
keys, which is the guarantee of the stable list sort of Python. -/
def insertByKey (x : String) : List String → List String
  | [] => [x]
  | y :: ys => if orderKey y < orderKey x then y :: insertByKey x ys else x :: y :: ys

/-- Stable sort by orderKey (an insertion sort; any stable sort computes
the same list). -/
def sortByKey (l : List String) : List String := l.foldr insertByKey []

/-- The stripped, nonempty pipe-separated tokens of a contact line, after
removing HTML tags. -/
def contactParts (raw : String) : List (List Char) :=
  let raw1 := rubGo tagRubStep raw.data.length raw.data
  ((splitOnCharL '|' raw1).map stripL).filter (fun p => !p.isEmpty)

/-- build_contact_info: classify and render each token, sort the items by
the fixed kind priority, and join. -/
def build_contact_info (raw : String) : String :=
  String.intercalate "\n" (sortByKey ((contactParts raw).map (fun p => contactItem (String.mk p))))

/-- split_skills: split a value string at commas that lie at parenthesis
depth zero, stripping each piece and dropping empty pieces.  The state is
the collected pieces, the current piece, and the running depth (an
integer, so an unmatched closing parenthesis drives it negative). -/
def splitSkillsStep : (List (List Char) × List Char × Int) → Char → (List (List Char) × List Char × Int)
  | (res, cur, d), c =>
    if c = '(' then (res, cur ++ [c], d + 1)
    else if c = ')' then (res, cur ++ [c], d - 1)
    else if c = ',' ∧ d = 0 then
      (if stripL cur = [] then res else res ++ [stripL cur], [], d)
    else (res, cur ++ [c], d)

/-- split_skills over a whole value string. -/
def split_skillsL (vals : List Char) : List (List Char) :=
  let st := vals.foldl splitSkillsStep ([], [], 0)
  st.1 ++ (if stripL st.2.1 = [] then [] else [stripL st.2.1])

/-- split_skills on strings. -/
def split_skills (vals : String) : List String := (split_skillsL vals.data).map String.mk

/-- The badge-color table of the skills builder. -/
def skillBadgeColor (cat : String) : String :=
  if cat = "Programming Languages" then "primary"
  else if cat = "Automotive Standards" then "primary"
  else if cat = "Tools & Platforms" then "secondary"
  else if cat = "DevOps" then "info"
  else if cat = "Methodologies" then "success"
  else if cat = "Soft Skills" then "warning"
  else "primary"

/-- One skills block: a dash line parses into a category and its values,
the values are split with split_skills, and each value is wrapped in a
badge span; lines that do not parse produce nothing. -/
def skillBlock (ln : List Char) : Option String :=
  match parseBoldColon (stripDashWs ln) with
  | some (cat0, vals) =>
    let cat := String.mk (stripL cat0)
    let color := skillBadgeColor cat
    let valsHtml := String.intercalate "\n\t\t"
      ((split_skillsL vals).map (fun v =>
        "<span class=\"badge badge-" ++ color ++ " mr-1 mb-1\">" ++ String.mk v ++ "</span>"))
    some ("<div class=\"item mb-3\">\n\t<h4 class=\"item-title\">" ++ cat
      ++ "</h4>\n\t<div class=\"item-content\">\n\t\t" ++ valsHtml ++ "\n\t</div>\n</div>")
  | none => none

/-- build_skills of the HTML script, with its raw-echo fallback when no
dash line parses. -/
def build_skills (raw : String) : String :=
  let blocks := (dashLines raw.data).filterMap skillBlock
  if blocks = [] then "<div class=\"item\"><em>" ++ raw ++ "</em></div>"
  else String.intercalate "\n" blocks

/-- Matcher for one re.sub occurrence of the horizontal-rule pattern: a
run of newlines, the three-dash literal, and a run of newlines, removed.
-/
def hrRubStep (l : List Char) : Option (List Char × List Char) :=
  let n1 := l.dropWhile (fun c => c = '\n')
  if List.isPrefixOf "---".data n1 then
    some ([], (n1.drop 3).dropWhile (fun c => c = '\n'))
  else none

/-- build_summary: strip, remove horizontal rules, strip again, and wrap
in a paragraph. -/
def build_summary (raw : String) : String :=
  let t1 := stripL raw.data
  let t2 := rubGo hrRubStep t1.length t1
  "<p class=\"mb-0\">" ++ String.mk (stripL t2) ++ "</p>"

/-- build_certifications of the HTML script. -/
def build_certifications (raw : String) : String :=
  let items := (dashLines raw.data).map (fun ln =>
    "<li class=\"mb-2\"><i class=\"fas fa-certificate mr-2 text-primary\"></i>"
      ++ String.mk (stripL (stripDashWs ln)) ++ "</li>")
  if items = [] then "<li>No certifications listed</li>"
  else String.intercalate "\n" items

/-- build_languages of the HTML script, echoing unparsed dash lines
verbatim. -/
def build_languages (raw : String) : String :=
  let items := (dashLines raw.data).map (fun ln =>
    match parseBoldColon (stripDashWs ln) with
    | some (lang, level) =>
        "<li class=\"mb-2\"><strong>" ++ String.mk (stripL lang) ++ ":</strong> "
          ++ String.mk (stripL level) ++ "</li>"
    | none => "<li class=\"mb-2\">" ++ String.mk (stripDashWs ln) ++ "</li>")
  if items = [] then "<li>No languages listed</li>"
  else String.intercalate "\n" items

end Html








namespace Html

/-- Parse of the education and company header pattern, anchored at both
ends: bold open, a nonempty run without an angle bracket, bold close,
optional whitespace, the fill token, optional whitespace, an emphasis
open, a nonempty run, and an emphasis close ending the line. -/
def parseBoldFillEm (l : List Char) : Option (List Char × List Char) :=
  if List.isPrefixOf "<b>".data l then
    let r := l.drop 3
    let left := r.takeWhile (fun c => c != '<')
    let r2 := r.drop left.length
    if left = [] then none
    else if List.isPrefixOf "</b>".data r2 then
      let r3 := (r2.drop 4).dropWhile isSpaceChar
      if List.isPrefixOf "@fill".data r3 then
        let r4 := (r3.drop 5).dropWhile isSpaceChar
        if List.isPrefixOf "<em>".data r4 then
          let r5 := r4.drop 4
          let right := r5.takeWhile (fun c => c != '<')
          if right = [] then none
          else if r5.drop right.length = "</em>".data then some (left, right)
          else none
        else none
      else none
    else none
  else none

/-- Python truthiness of an optional string: present and nonempty. -/
def optTruthy : Option String → Bool
  | some s => !s.isEmpty
  | none => false

/-- Interpolation of a value that may be absent, as a Python f-string
renders it. -/
def optStr : Option String → String
  | some s => s
  | none => "None"

/-- The loop state of build_education: the university line fields, the
closed degree tuples, and the currently open degree, dates and GPA. -/
structure EduState where
  univName : String
  univLoc : String
  degrees : List (String × Option String × Option String)
  curDeg : Option String
  curDates : Option String
  curGpa : Option String
deriving DecidableEq

/-- Initial build_education state. -/
def initEdu : EduState :=
  { univName := "", univLoc := "", degrees := [], curDeg := none, curDates := none, curGpa := none }

/-- Close the currently open degree if it is truthy, exactly as the save
steps of build_education do. -/
def eduFlush (st : EduState) : List (String × Option String × Option String) :=
  if optTruthy st.curDeg then st.degrees ++ [(st.curDeg.getD "", st.curDates, st.curGpa)]
  else st.degrees

/-- One line of the build_education loop: blank lines and rules are
skipped; a two-field header line is a degree line when its second field
contains a digit (closing any open degree) and the university line
otherwise; a dash line starting with the GPA label updates the open GPA.
-/
def eduStep (st : EduState) (line : List Char) : EduState :=
  let stripped := stripL line
  if stripped = [] ∨ stripped = "---".data then st
  else
    match parseBoldFillEm stripped with
    | some lr =>
      let leftS := String.mk (stripL lr.1)
      let rightS := String.mk (stripL lr.2)
      if (stripL lr.2).any isDigitChar then
        { st with degrees := eduFlush st, curDeg := some leftS, curDates := some rightS,
                  curGpa := none }
      else { st with univName := leftS, univLoc := rightS }
    | none =>
      if List.isPrefixOf "- ".data stripped then
        let gpaText := stripL (stripped.drop 2)
        if List.isPrefixOf "GPA:".data gpaText then { st with curGpa := some (String.mk gpaText) }
        else st
      else st

/-- The degree list build_education renders: the loop result with the
last open degree closed. -/
def eduDegrees (raw : String) : EduState × List (String × Option String × Option String) :=
  let st := (splitLinesL (stripL raw.data)).foldl eduStep initEdu
  (st, eduFlush st)

/-- One rendered degree entry. -/
def eduEntry (d : String × Option String × Option String) : String :=
  let e := "\t<div class=\"d-flex justify-content-between mb-2\"><strong>" ++ d.1
    ++ "</strong><em class=\"text-muted\">" ++ optStr d.2.1 ++ "</em></div>"
  if optTruthy d.2.2 then e ++ "\n\t<p class=\"mb-3 ml-2\">" ++ (d.2.2.getD "") ++ "</p>" else e

/-- build_education of the HTML script. -/
def build_education (raw : String) : String :=
  let sd := eduDegrees raw
  if sd.2 = [] then
    "<ul class=\"list-unstyled resume-education-list\">\n<li>No education info</li>\n</ul>"
  else
    "<ul class=\"list-unstyled resume-education-list\">\n<li class=\"mb-4\">\n\t<h4 class=\"mb-3\">"
      ++ sd.1.univName ++ ", " ++ sd.1.univLoc ++ "</h4>\n"
      ++ String.intercalate "\n" (sd.2.map eduEntry) ++ "\n</li>\n</ul>"

/-- A responsibilities entry of a work project: a category opener, a
nested item, or a plain item. -/
inductive RItem where
  | category (name : String)
  | sub (text : String)
  | item (text : String)
deriving DecidableEq

/-- An achievements entry of a work project: a labelled bold item or a
plain item. -/
inductive AItem where
  | bold_item (label descr : String)
  | item (text : String)
deriving DecidableEq

/-- One work-experience project record. -/
structure Project where
  info : String
  dates : String
  position : String
  resp : List RItem
  achv : List AItem
deriving DecidableEq

/-- The loop state of build_work. -/
structure WorkState where
  companyName : String
  companyLoc : String
  curPos : String
  projects : List Project
  curProj : Option Project
  curSection : Option String
  curCat : Option String
deriving DecidableEq

/-- Initial build_work state. -/
def initWork : WorkState :=
  { companyName := "", companyLoc := "", curPos := "", projects := [], curProj := none,
    curSection := none, curCat := none }

/-- Parse of the standalone bold position line, anchored at both ends. -/
def parseBoldOnly (l : List Char) : Option (List Char) :=
  if List.isPrefixOf "<b>".data l then
    let r := l.drop 3
    let t := r.takeWhile (fun c => c != '<')
    if t = [] then none
    else if r.drop t.length = "</b>".data then some t
    else none
  else none

/-- Parse of the project line, anchored at both ends: italic info, the
fill token, and emphasised dates. -/
def parseItalFillEm (l : List Char) : Option (List Char × List Char) :=
  if List.isPrefixOf "<i>".data l then
    let r := l.drop 3
    let info := r.takeWhile (fun c => c != '<')
    let r2 := r.drop info.length
    if info = [] then none
    else if List.isPrefixOf "</i>".data r2 then
      let r3 := (r2.drop 4).dropWhile isSpaceChar
      if List.isPrefixOf "@fill".data r3 then
        let r4 := (r3.drop 5).dropWhile isSpaceChar
        if List.isPrefixOf "<em>".data r4 then
          let r5 := r4.drop 4
          let dates := r5.takeWhile (fun c => c != '<')
          if dates = [] then none
          else if r5.drop dates.length = "</em>".data then some (info, dates)
          else none
        else none
      else none
    else none
  else none

/-- Parse of the section header line: exactly the bold responsibilities
or achievements label. -/
def parseSectionHdr (l : List Char) : Option String :=
  if l = "<b>Responsibilities:</b>".data then some "Responsibilities"
  else if l = "<b>Achievements:</b>".data then some "Achievements"
  else none

/-- Parse of a category bullet with a colon: bold open, a nonempty
capture, a colon, bold close, then only whitespace to the end. -/
def parseCatColon (l : List Char) : Option (List Char) :=
  if List.isPrefixOf "<b>".data l then
    let r := l.drop 3
    let t := r.takeWhile (fun c => c != '<')
    let rest := r.drop t.length
    match t.getLast? with
    | some ':' =>
      if t.dropLast = [] then none
      else if List.isPrefixOf "</b>".data rest ∧ (rest.drop 4).all isSpaceChar then
        some t.dropLast
      else none
    | _ => none
  else none

/-- Parse of a category bullet without a colon: bold open, a nonempty
capture free of colons and angle brackets, bold close, then only
whitespace. -/
def parseCatNoColon (l : List Char) : Option (List Char) :=
  if List.isPrefixOf "<b>".data l then
    let r := l.drop 3
    let t := r.takeWhile (fun c => c != '<' && c != ':')
    let rest := r.drop t.length
    if t = [] then none
    else if List.isPrefixOf "</b>".data rest ∧ (rest.drop 4).all isSpaceChar then some t
    else none
  else none

/-- Parse of a labelled achievement bullet: bold open, a nonempty capture,
a colon, bold close, whitespace, and a nonempty description.  When only
whitespace follows, the regex still matches with the last whitespace
character as the description (the greedy whitespace run backtracks by
one); with nothing after the close it fails. -/
def parseBoldItem (l : List Char) : Option (List Char × List Char) :=
  if List.isPrefixOf "<b>".data l then
    let r := l.drop 3
    let t := r.takeWhile (fun c => c != '<')
    let rest := r.drop t.length
    match t.getLast? with
    | some ':' =>
      if t.dropLast = [] then none
      else if List.isPrefixOf "</b>".data rest then
        let after := rest.drop 4
        let descr := after.dropWhile isSpaceChar
        if descr = [] then
          if after = [] then none else some (t.dropLast, after.drop (after.length - 1))
        else some (t.dropLast, descr)
      else none
    | _ => none
  else none

/-- Append a responsibilities entry to the open project, when one is
open. -/
def addResp (st : WorkState) (it : RItem) : WorkState :=
  { st with curProj := st.curProj.map (fun p => { p with resp := p.resp ++ [it] }) }

/-- Append an achievements entry to the open project, when one is open.
-/
def addAchv (st : WorkState) (it : AItem) : WorkState :=
  { st with curProj := st.curProj.map (fun p => { p with achv := p.achv ++ [it] }) }

/-- The tail of the dash branch of the build_work loop: a labelled bold
item (recorded only under achievements), otherwise a plain or nested item
attached to the open project by the current section. -/
def workStepDashRest (st : WorkState) (line item_text : List Char) : WorkState :=
  match parseBoldItem item_text with
  | some ab =>
    if st.curSection = some "Achievements" then
      addAchv st (AItem.bold_item (String.mk (stripL ab.1)) (String.mk (stripL ab.2)))
    else st
  | none =>
    match st.curProj with
    | none => st
    | some p =>
      if st.curSection = some "Responsibilities" then
        if List.isPrefixOf "  -".data line then
          { st with curProj := some { p with resp := p.resp ++ [RItem.sub (String.mk item_text)] } }
        else
          { st with curProj := some { p with resp := p.resp ++ [RItem.item (String.mk item_text)] } }
      else if st.curSection = some "Achievements" then
        { st with curProj := some { p with achv := p.achv ++ [AItem.item (String.mk item_text)] } }
      else st

/-- The dash branch of the build_work loop: category bullets (with or
without a colon) are recognised only under responsibilities and always
update the running category, appending to the open project when there is
one; everything else falls to workStepDashRest. -/
def workStepDash (st : WorkState) (line stripped : List Char) : WorkState :=
  let item_text := stripDashWs stripped
  if st.curSection = some "Responsibilities" then
    match parseCatColon item_text with
    | some cat =>
      addResp { st with curCat := some (String.mk (stripL cat)) }
        (RItem.category (String.mk (stripL cat)))
    | none =>
      match parseCatNoColon item_text with
      | some cat =>
        addResp { st with curCat := some (String.mk (stripL cat)) }
          (RItem.category (String.mk (stripL cat)))
      | none => workStepDashRest st line item_text
  else workStepDashRest st line item_text

/-- The part of the cascade after the position check. -/
def workStepTail (st : WorkState) (line stripped : List Char) : WorkState :=
  match parseItalFillEm stripped with
  | some id2 =>
    { st with
        projects := st.projects ++ (match st.curProj with | some p => [p] | none => []),
        curProj := some { info := String.mk (stripL id2.1), dates := String.mk (stripL id2.2),
                          position := st.curPos, resp := [], achv := [] },
        curSection := none, curCat := none }
  | none =>
    match parseSectionHdr stripped with
    | some s => { st with curSection := some s, curCat := none }
    | none =>
      if List.isPrefixOf "- ".data stripped then workStepDash st line stripped
      else if List.isPrefixOf "  -".data line then
        if st.curSection = some "Responsibilities" then
          addResp st (RItem.sub (String.mk (stripLeadWsDash stripped)))
        else st
      else st

/-- One line of the build_work loop, mirroring the ordered cascade of
pattern attempts of the source: blank and rule lines, the company
header, the standalone position (skipped when it mentions a section
label), the project opener, the section header, dash bullets, and nested
bullets. -/
def workStep (st : WorkState) (line : List Char) : WorkState :=
  let stripped := stripL line
  if stripped = [] ∨ stripped = "---".data then st
  else
    match parseBoldFillEm stripped with
    | some lr =>
      { st with companyName := String.mk (stripL lr.1), companyLoc := String.mk (stripL lr.2) }
    | none =>
      match parseBoldOnly stripped with
      | some t =>
        if !occursB "Responsibilities".data stripped && !occursB "Achievements".data stripped then
          { st with curPos := String.mk (stripL t) }
        else workStepTail st line stripped
      | none => workStepTail st line stripped

/-- The responsibilities renderer state: emitted parts and whether a list
is open (the truthiness of the running category variable). -/
def respFold : (List String × Bool) → RItem → (List String × Bool)
  | (parts, cc), RItem.category n =>
    ((if cc then parts ++ ["\t</ul>"] else parts)
      ++ ["\t<p class=\"mb-2 ml-2\"><strong>" ++ n ++ ":</strong></p>", "\t<ul class=\"resume-list mb-3\">"],
      true)
  | (parts, cc), RItem.sub t => (parts ++ ["\t\t<li class=\"mb-2\">" ++ t ++ "</li>"], cc)
  | (parts, cc), RItem.item t =>
    if cc then (parts ++ ["\t\t<li class=\"mb-2\">" ++ t ++ "</li>"], cc)
    else (parts ++ ["\t<ul class=\"resume-list mb-3\">", "\t\t<li class=\"mb-2\">" ++ t ++ "</li>"], true)

/-- Matcher for one re.sub occurrence turning inline bold markup into a
strong tag. -/
def boldToStrongStep (l : List Char) : Option (List Char × List Char) :=
  if List.isPrefixOf "<b>".data l then
    let r := l.drop 3
    let t := r.takeWhile (fun c => c != '<')
    if t = [] then none
    else if List.isPrefixOf "</b>".data (r.drop t.length) then
      some ("<strong>".data ++ t ++ "</strong>".data, (r.drop t.length).drop 4)
    else none
  else none

/-- One rendered achievements entry. -/
def renderAchv (a : AItem) : String :=
  match a with
  | AItem.bold_item lb d => "\t\t<li class=\"mb-2\"><strong>" ++ lb ++ ":</strong> " ++ d ++ "</li>"
  | AItem.item t =>
    "\t\t<li class=\"mb-2\">" ++ String.mk (rubGo boldToStrongStep t.data.length t.data) ++ "</li>"

/-- One rendered project block. -/
def renderProj (first : Bool) (cName cLoc : String) (p : Project) : String :=
  let head :=
    if first then
      ["<div class=\"item mb-5\">",
       "\t<h4 class=\"resume-position-title font-weight-bold mb-2\">" ++ cName ++ " | " ++ cLoc ++ "</h4>"]
    else ["<div class=\"item mb-4\">"]
  let head := head ++
    ["\t<div class=\"resume-position-time d-flex justify-content-between mb-3\"><span class=\"font-weight-bold\">"
      ++ p.position ++ "</span><em class=\"text-muted\">" ++ p.dates ++ "</em></div>"]
  let head := head ++ (if p.info ≠ "" then ["\t<p class=\"mb-3\"><em>" ++ p.info ++ "</em></p>"] else [])
  let rparts :=
    if p.resp ≠ [] then
      let pc := p.resp.foldl respFold ([], false)
      ["\t<p class=\"mb-2 mt-3\"><strong>Responsibilities:</strong></p>"] ++ pc.1
        ++ (if pc.2 then ["\t</ul>"] else [])
    else []
  let aparts :=
    if p.achv ≠ [] then
      ["\t<p class=\"mb-2 mt-3\"><strong>Achievements:</strong></p>", "\t<ul class=\"resume-list mb-3\">"]
        ++ p.achv.map renderAchv ++ ["\t</ul>"]
    else []
  String.intercalate "\n" (head ++ rparts ++ aparts ++ ["</div>"])

/-- The parsed project list of a work-experience body: the loop result
with the last open project closed. -/
def workParsed (lines : List (List Char)) : WorkState × List Project :=
  let st := lines.foldl workStep initWork
  (st, st.projects ++ (match st.curProj with | some p => [p] | none => []))

/-- The rendering stage of build_work over parsed lines. -/
def renderWork (lines : List (List Char)) : String :=
  let sp := workParsed lines
  if sp.2 = [] then "<div class=\"item mb-3\"><em>No work experience parsed.</em></div>"
  else
    String.intercalate "\n\n"
      (sp.2.enum.map (fun ip => renderProj (ip.1 = 0) sp.1.companyName sp.1.companyLoc ip.2))

/-- build_work of the HTML script. -/
def build_work (raw : String) : String :=
  renderWork (splitLinesL (stripL raw.data))

end Html



namespace Tex

/-! Model of tool/build_sidebar_cv.py. -/

/-- extract_sections of the LaTeX script: the findall pairs of the shared
section pattern, name and body stripped. -/
def extract_sections (text : String) : List (String × String) :=
  (Html.extractSectionsRaw text.data).map (fun nb => (String.mk (stripL nb.1), String.mk (stripL nb.2)))

/-- Matcher for the mainpage name pattern: the mainpage literal,
whitespace, and the lazily captured rest of the line (which runs to the
newline or the end of the text). -/
def mainpageNameStep (l : List Char) : Option (List Char) :=
  if List.isPrefixOf "@mainpage".data l then
    let r0 := l.drop 9
    let ws := r0.takeWhile isSpaceChar
    let r1 := r0.dropWhile isSpaceChar
    if ws = [] ∨ r1 = [] then none
    else some (r1.takeWhile (fun c => c != '\n'))
  else none

/-- extract_name: the stripped capture, or the name placeholder. -/
def extract_name (text : String) : String :=
  match searchPat mainpageNameStep text.data with
  | some cap => String.mk (stripL cap)
  | none => "Name"

/-- The token classes of extract_contact, in the order its branch cascade
tests them. -/
inductive TKind where
  | email
  | phone
  | linkedin
  | github
  | location
deriving DecidableEq

/-- The branch cascade of extract_contact: an at sign without a
case-insensitive linkedin or github occurrence means email, then the
phone heuristic, then linkedin, then github, and otherwise location. -/
def texContactKind (p : String) : TKind :=
  if p.data.any (fun c => c = '@')
      && !(occursB "linkedin".data (lowerL p.data))
      && !(occursB "github".data (lowerL p.data)) then .email
  else if Html.phoneTestB p.data then .phone
  else if occursB "linkedin".data (lowerL p.data) then .linkedin
  else if occursB "github".data (lowerL p.data) then .github
  else .location

/-- Matcher for the parenthesised URL pattern of the profile branches: an
opening parenthesis, a scheme, a nonempty run up to the closing
parenthesis, which must be present. -/
def hrefStep : List Char → Option (List Char)
  | '(' :: r =>
    let n : Option Nat :=
      if List.isPrefixOf "https://".data r then some 8
      else if List.isPrefixOf "http://".data r then some 7
      else none
    match n with
    | some k =>
      let inner := (r.drop k).takeWhile (fun c => c != ')')
      if inner = [] then none
      else if ((r.drop k).drop inner.length).head? = some ')' then some (r.take k ++ inner)
      else none
    | none => none
  | _ => none

/-- The contact line emitted for one token, by class: profile tokens
without a parenthesised URL are dropped. -/
def texContactLine (p : String) : Option String :=
  match texContactKind p with
  | .email => some ("\\contactitem\x7benvelope\x7d\x7b" ++ p ++ "\x7d")
  | .phone => some ("\\contactitem\x7bphone\x7d\x7b" ++ p ++ "\x7d")
  | .linkedin =>
    (searchPat hrefStep p.data).map
      (fun u => "\\contactitem\x7blinkedin\x7d\x7b\\href\x7b" ++ String.mk u ++ "\x7d\x7bLinkedIn\x7d\x7d")
  | .github =>
    (searchPat hrefStep p.data).map
      (fun u => "\\contactitem\x7bgithub\x7d\x7b\\href\x7b" ++ String.mk u ++ "\x7d\x7bGitHub\x7d\x7d")
  | .location => some ("\\contactitem\x7bmap-marker-alt\x7d\x7b" ++ p ++ "\x7d")

/-- The emitted contact lines of a raw pipe-separated contact string, in
source order. -/
def texContactLines (raw : String) : List String :=
  (((splitOnCharL '|' raw.data).map stripL).filter (fun p => !p.isEmpty)).filterMap
    (fun p => texContactLine (String.mk p))

/-- extract_contact: locate the contact line under the mainpage header
and render its tokens, joined by newlines; empty without a match. -/
def extract_contact (text : String) : String :=
  match searchPat Html.mainpageContactStep text.data with
  | some cap => String.intercalate "\n" (texContactLines (String.mk (stripL cap)))
  | none => ""

/-- escape_latex: the ordered character replacements of the source
(ampersand first). -/
def escape_latex (s : String) : String :=
  let l := s.data
  let l := replaceAllL "&".data "\\&".data l
  let l := replaceAllL "%".data "\\%".data l
  let l := replaceAllL "$".data "\\$".data l
  let l := replaceAllL "#".data "\\#".data l
  let l := replaceAllL "_".data "\\_".data l
  let l := replaceAllL "\x7b".data "\\\x7b".data l
  let l := replaceAllL "\x7d".data "\\\x7d".data l
  let l := replaceAllL "~".data "\\textasciitilde\x7b\x7d".data l
  let l := replaceAllL "^".data "\\textasciicircum\x7b\x7d".data l
  String.mk l

/-- Matcher for one occurrence of a doxygen command (an at sign, word
characters, optional whitespace), removed by extract_summary. -/
def doxCmdStep : List Char → Option (List Char × List Char)
  | '@' :: r =>
    let w := r.takeWhile isWordChar
    if w = [] then none
    else some ([], (r.drop w.length).dropWhile isSpaceChar)
  | _ => none

/-- extract_summary: the summary section with doxygen commands removed,
stripped, escaped; empty when the section is missing. -/
def extract_summary (text : String) : String :=
  match Html.sectionsGet (extract_sections text) "summary" with
  | some s =>
    let t := rubGo doxCmdStep s.data.length s.data
    escape_latex (String.mk (stripL t))
  | none => ""

/-- The icon table of the skills builder. -/
def iconFor (cat : String) : String :=
  if cat = "Programming Languages" then "code"
  else if cat = "Automotive Standards" then "car"
  else if cat = "Tools & Platforms" then "tools"
  else if cat = "DevOps" then "server"
  else if cat = "Methodologies" then "project-diagram"
  else if cat = "Soft Skills" then "users"
  else "check"

/-- The first parenthesis character of a list, if any. -/
def firstParenChar : List Char → Option Char
  | [] => none
  | c :: t => if c = '(' || c = ')' then some c else firstParenChar t

/-- The lookahead of the comma-splitting regex of the LaTeX skills
builder: a comma separates unless the first parenthesis character after
it is a closing parenthesis.  (The lookahead scans characters that are
not parentheses, so it succeeds exactly when a closing parenthesis comes
before any opening one.) -/
def commaSplitsHere (rest : List Char) : Bool :=
  match firstParenChar rest with
  | some ')' => false
  | _ => true

/-- The regex split of the skills values: split at separating commas,
each separator consuming the comma and the following whitespace run. -/
def reSplitCommaGo : Nat → List Char → List Char → List (List Char)
  | 0, l, cur => [cur.reverse ++ l]
  | _ + 1, [], cur => [cur.reverse]
  | f + 1, c :: t, cur =>
    if c = ',' && commaSplitsHere t then cur.reverse :: reSplitCommaGo f (t.dropWhile isSpaceChar) []
    else reSplitCommaGo f t (c :: cur)

/-- The regex split of the skills values over a whole string. -/
def reSplitComma (l : List Char) : List (List Char) := reSplitCommaGo l.length l []

/-- The value list of one skills line in the LaTeX builder: regex split,
stripped, empties dropped. -/
def texSkillVals (vals : List Char) : List (List Char) :=
  ((reSplitComma vals).map stripL).filter (fun v => !v.isEmpty)

/-- One skills block of the LaTeX builder. -/
def texSkillBlock (ln : List Char) : Option String :=
  match parseBoldColon (stripDashWs ln) with
  | some cv =>
    let cat := String.mk (stripL cv.1)
    let tags := String.intercalate " "
      ((texSkillVals cv.2).map (fun v => "\\skilltag\x7b" ++ escape_latex (String.mk v) ++ "\x7d"))
    some ("\\skillcategory\x7b" ++ iconFor cat ++ "\x7d\x7b" ++ escape_latex cat ++ "\x7d\n"
      ++ tags ++ "\n\\vspace\x7b0.4em\x7d\n")
  | none => none

/-- build_skills of the LaTeX script. -/
def build_skills (raw : String) : String :=
  String.intercalate "\n" ((dashLines raw.data).filterMap texSkillBlock)

/-- Matcher for one re.sub occurrence of the internal-parenthetical
pattern of the certifications builder: a whitespace run, an opening
parenthesis, content free of closing parentheses that mentions the
internal marker, and the closing parenthesis, all removed. -/
def internalParenStep (l : List Char) : Option (List Char × List Char) :=
  let r := l.dropWhile isSpaceChar
  match r with
  | '(' :: r2 =>
    let inner := r2.takeWhile (fun c => c != ')')
    if (r2.drop inner.length).head? = some ')' && occursB "Internal".data inner then
      some ([], (r2.drop inner.length).drop 1)
    else none
  | _ => none

/-- build_certifications of the LaTeX script. -/
def build_certifications (raw : String) : String :=
  String.intercalate "\n" ((dashLines raw.data).map (fun ln0 =>
    let ln := stripDashWs ln0
    let ln := rubGo internalParenStep ln.length ln
    "\\textcolor\x7baccentcolor\x7d\x7b\\faIcon\x7bcertificate\x7d\x7d \\textcolor\x7btextlight\x7d\x7b\\small "
      ++ escape_latex (String.mk ln) ++ "\x7d\\\\[0.2em]"))

/-- build_languages of the LaTeX script. -/
def build_languages (raw : String) : String :=
  String.intercalate "\n" ((dashLines raw.data).filterMap (fun ln0 =>
    match parseBoldColon (stripDashWs ln0) with
    | some ll =>
      some ("\\textcolor\x7baccentcolor\x7d\x7b\\faIcon\x7blanguage\x7d\x7d \\textbf\x7b\\textcolor\x7btextlight\x7d\x7b"
        ++ escape_latex (String.mk (stripL ll.1)) ++ "\x7d\x7d \\textcolor\x7btextlight\x7d\x7b\\small "
        ++ escape_latex (String.mk (stripL ll.2)) ++ "\x7d\\\\[0.2em]")
    | none => none))

end Tex







namespace Tex

/-- Parse of the bold header pattern of the experience builder: bold
open, a nonempty capture, a colon, bold close, whitespace, and the
(possibly empty) greedily captured rest. -/
def parseHdrColon (l : List Char) : Option (List Char × List Char) :=
  if List.isPrefixOf "<b>".data l then
    let r := l.drop 3
    let t := r.takeWhile (fun c => c != '<')
    let rest := r.drop t.length
    match t.getLast? with
    | some ':' =>
      if t.dropLast = [] then none
      else if List.isPrefixOf "</b>".data rest then
        some (t.dropLast, (rest.drop 4).dropWhile isSpaceChar)
      else none
    | _ => none
  else none

/-- Matcher for one re.sub occurrence turning inline bold markup into the
bold macro. -/
def boldTextbfStep (l : List Char) : Option (List Char × List Char) :=
  if List.isPrefixOf "<b>".data l then
    let r := l.drop 3
    let t := r.takeWhile (fun c => c != '<')
    if t = [] then none
    else if List.isPrefixOf "</b>".data (r.drop t.length) then
      some ("\\textbf\x7b".data ++ t ++ "\x7d".data, (r.drop t.length).drop 4)
    else none
  else none

/-- The bold-markup sub over a whole item text. -/
def boldTextbfSub (l : List Char) : List Char := rubGo boldTextbfStep l.length l

/-- Matcher for the position-title split: a lazy nonempty capture, then
optional whitespace, a pipe, optional whitespace, and a nonempty rest.
The scanner accumulates the text before the candidate pipe; the first
capture is that text without its trailing whitespace (or its first
character when it is all whitespace, since the lazy capture must keep one
character), and the second capture starts after the whitespace following
the pipe (falling back to the last whitespace character when nothing else
follows, and to a later pipe when nothing at all follows). -/
def titleSplitGo (pre : List Char) : List Char → Option (List Char × List Char)
  | [] => none
  | c :: r =>
    if c = '|' ∧ pre ≠ [] then
      let g1 := if rstripL pre = [] then pre.take 1 else rstripL pre
      let d := r.dropWhile isSpaceChar
      if d ≠ [] then some (g1, d)
      else if r ≠ [] then some (g1, r.drop (r.length - 1))
      else titleSplitGo (pre ++ [c]) r
    else titleSplitGo (pre ++ [c]) r

/-- The loop state of the experience content scan: emitted parts, the
open item list, and the current (write-only) section header. -/
structure ExpState where
  parts : List String
  curList : List (List Char)
  curHeader : Option String
deriving DecidableEq

/-- Close the open item list into an itemize block, escaping each item. -/
def expFlush (st : ExpState) : ExpState :=
  if st.curList = [] then st
  else
    { st with
        parts := st.parts ++ ["\\begin\x7bitemize\x7d"]
          ++ st.curList.map (fun it => "\\item " ++ escape_latex (String.mk it))
          ++ ["\\end\x7bitemize\x7d"],
        curList := [] }

/-- One content line of the experience builder: bold headers (customer
and product rendered inline, section labels recorded, others emitted
bold), dash items (category headers flushed and emitted, plain items
collected after bold substitution), and the four-space nested variant. -/
def expLineStep (st : ExpState) (line0 : List Char) : ExpState :=
  let line := rstripL line0
  if line = [] ∨ stripL line = "---".data then st
  else
    let stripped := stripL line
    match parseHdrColon stripped with
    | some nv =>
      let st := expFlush st
      let nmS := String.mk (stripL nv.1)
      let valS := String.mk (stripL nv.2)
      if nmS = "Customer" ∨ nmS = "Product" then
        { st with parts := st.parts ++ ["\\textbf\x7b" ++ nmS ++ ":\x7d " ++ escape_latex valS ++ "\\\\"] }
      else if nmS = "Responsibilities" ∨ nmS = "Achievements" then
        { st with curHeader := some nmS }
      else
        { st with parts := st.parts ++ ["\\textbf\x7b" ++ escape_latex nmS ++ ":\x7d\\\\"] }
    | none =>
      if List.isPrefixOf "- ".data stripped then
        let item_text := stripL (stripped.drop 2)
        match parseHdrColon item_text with
        | some cc =>
          let st := expFlush st
          let withCat := st.parts ++ ["\\textbf\x7b" ++ escape_latex (String.mk cc.1) ++ ":\x7d"]
          let withVal := if cc.2 ≠ [] then withCat ++ [" " ++ escape_latex (String.mk cc.2)] else withCat
          { st with parts := withVal ++ ["\\\\"] }
        | none => { st with curList := st.curList ++ [boldTextbfSub item_text] }
      else if List.isPrefixOf "  - ".data line then
        { st with curList := st.curList ++ [boldTextbfSub (stripL (stripped.drop 2))] }
      else st

/-- Matcher for the experience company pattern: the subsection literal,
whitespace, a word name, whitespace, and a lazy capture running to a
newline that must be present. -/
def subsectionTitleStep (l : List Char) : Option (List Char) :=
  if List.isPrefixOf "@subsection".data l then
    let r0 := l.drop 11
    let ws1 := r0.takeWhile isSpaceChar
    let r1 := r0.dropWhile isSpaceChar
    let nm := r1.takeWhile isWordChar
    let r2 := r1.dropWhile isWordChar
    let ws2 := r2.takeWhile isSpaceChar
    let r3 := r2.dropWhile isSpaceChar
    if ws1 = [] ∨ nm = [] ∨ ws2 = [] ∨ r3 = [] then none
    else
      let cap := r3.takeWhile (fun c => c != '\n')
      if (r3.drop cap.length).head? = some '\n' then some cap else none
  else none

/-- Separator matcher of the position split: the subsubsection literal,
whitespace, a word name, and the whitespace run after it. -/
def subsubSplitStep (l : List Char) : Option (List Char) :=
  if List.isPrefixOf "@subsubsection".data l then
    let r0 := l.drop 14
    let ws1 := r0.takeWhile isSpaceChar
    let r1 := r0.dropWhile isSpaceChar
    let nm := r1.takeWhile isWordChar
    let r2 := r1.dropWhile isWordChar
    let ws2 := r2.takeWhile isSpaceChar
    if ws1 = [] ∨ nm = [] ∨ ws2 = [] then none
    else some (r2.dropWhile isSpaceChar)
  else none

/-- One experience entry, from one stripped position block; a block
without lines yields nothing. -/
def texExpEntry (first : Bool) (company : String) (pos : List Char) : Option String :=
  match splitLinesL pos with
  | [] => none
  | l0 :: rest =>
    let title_line := stripL l0
    let pd :=
      match titleSplitGo [] title_line with
      | some g => g
      | none => (title_line, [])
    let st := rest.foldl expLineStep { parts := [], curList := [], curHeader := none }
    let st := expFlush st
    let headArg := if first then escape_latex company else ""
    some ("\\experienceentry\x7b" ++ headArg ++ "\x7d\x7b" ++ escape_latex (String.mk (stripL pd.1))
      ++ "\x7d\x7b" ++ escape_latex (String.mk (stripL pd.2)) ++ "\x7d\x7b\n"
      ++ String.intercalate "\n" st.parts ++ "\n\x7d")

/-- build_experience of the LaTeX script. -/
def build_experience (raw : String) : String :=
  let company :=
    match searchPat subsectionTitleStep raw.data with
    | some c => String.mk (stripL c)
    | none => "Company"
  let positions :=
    (((splitPatGo subsubSplitStep raw.data.length raw.data []).drop 1).map stripL).filter
      (fun p => !p.isEmpty)
  String.intercalate "\n\n"
    (positions.enum.filterMap (fun ip => texExpEntry (ip.1 = 0) company ip.2))

/-- Separator matcher of the education split: the subsection literal,
whitespace, a word name, and the whitespace run after it. -/
def subSplitStep (l : List Char) : Option (List Char) :=
  if List.isPrefixOf "@subsection".data l then
    let r0 := l.drop 11
    let ws1 := r0.takeWhile isSpaceChar
    let r1 := r0.dropWhile isSpaceChar
    let nm := r1.takeWhile isWordChar
    let r2 := r1.dropWhile isWordChar
    let ws2 := r2.takeWhile isSpaceChar
    if ws1 = [] ∨ nm = [] ∨ ws2 = [] then none
    else some (r2.dropWhile isSpaceChar)
  else none

/-- Matcher for the degree pattern searched inside the remembered degree
line: bold open, degree capture, bold close, optional whitespace, a pipe,
optional whitespace, emphasis open, dates capture, emphasis close. -/
def degreePipeStep (l : List Char) : Option (List Char × List Char) :=
  if List.isPrefixOf "<b>".data l then
    let r := l.drop 3
    let t := r.takeWhile (fun c => c != '<')
    let rest := r.drop t.length
    if t = [] then none
    else if List.isPrefixOf "</b>".data rest then
      match (rest.drop 4).dropWhile isSpaceChar with
      | '|' :: r3 =>
        let r4 := r3.dropWhile isSpaceChar
        if List.isPrefixOf "<em>".data r4 then
          let em := (r4.drop 4).takeWhile (fun c => c != '<')
          if em = [] then none
          else if List.isPrefixOf "</em>".data ((r4.drop 4).drop em.length) then some (t, em)
          else none
        else none
      | _ => none
    else none
  else none

/-- The stripped, nonempty parts of the education body, split at
subsection headers. -/
def texEduParts (raw : List Char) : List (List Char) :=
  ((splitPatGo subSplitStep raw.length raw []).map stripL).filter (fun p => !p.isEmpty)

/-- The filtered lines of one education part. -/
def texEduLines (part : List Char) : List (List Char) :=
  ((splitLinesL part).map stripL).filter
    (fun l => !l.isEmpty && !(List.isPrefixOf "---".data l))

/-- The line scan of one education part: the last line containing both
bold and emphasis markup is the degree line, and the last line starting
with the GPA label is the GPA line. -/
def texEduScan (ls : List (List Char)) : List Char × List Char :=
  ls.foldl
    (fun dg line =>
      if occursB "<b>".data line && occursB "<em>".data line then (line, dg.2)
      else if List.isPrefixOf "GPA:".data line then (dg.1, line)
      else dg)
    ([], [])

/-- One education entry, from one stripped part: the first line is the
institution, and the degree line must contain the searched pipe pattern.
-/
def texEduEntry (part : List Char) : Option String :=
  match texEduLines part with
  | [] => none
  | univ :: rest =>
    let dg := texEduScan rest
    if dg.1 = [] then none
    else
      match searchPat degreePipeStep dg.1 with
      | some de =>
        some ("\\educationentry\x7b" ++ escape_latex (String.mk univ) ++ "\x7d\x7b"
          ++ escape_latex (String.mk (stripL de.1)) ++ "\x7d\x7b"
          ++ escape_latex (String.mk (stripL de.2)) ++ "\x7d\x7b"
          ++ escape_latex (String.mk dg.2) ++ "\x7d")
      | none => none

/-- build_education of the LaTeX script. -/
def build_education (raw : String) : String :=
  String.intercalate "\n\n" ((texEduParts raw.data).filterMap texEduEntry)

end Tex




namespace Html

/-- The newline list used by replace_block when it rebuilds a region. -/
def nlL : List Char := ['\n']

/-- replace_block: find the leftmost start marker followed by an end
marker (the lazy dot-all region of the compiled pattern ends at the first
end marker after the start marker); replace that whole region once with
the start marker, a newline, the new content, a newline, and the end
marker.  Without a match the document is returned unchanged (the source
prints a warning in that case). -/
def replaceBlockL (s e inner html : List Char) : List Char :=
  match firstSplit s html with
  | none => html
  | some pr =>
    match firstSplit e pr.2 with
    | none => html
    | some mq => pr.1 ++ s ++ nlL ++ inner ++ nlL ++ e ++ mq.2

/-- replace_block on strings. -/
def replace_block (html start e new_inner : String) : String :=
  String.mk (replaceBlockL start.data e.data new_inner.data html.data)

/-- The marker table of the HTML script, paired with the rendered content
each of the replaced sections receives, in the order main applies them;
sections missing from the document are skipped exactly as main skips
them. -/
def blocksForL (dox : String) : List (List Char × List Char × List Char) :=
  let secs := extract_sections dox
  let contact := extract_contact_from_mainpage dox
  (if contact ≠ "" then
    [("<!-- CONTACT_INFO_START -->".data, "<!-- CONTACT_INFO_END -->".data,
      (build_contact_info contact).data)]
   else [])
  ++ (match sectionsGet secs "summary" with
      | some b => [("<!-- SUMMARY_START -->".data, "<!-- SUMMARY_END -->".data, (build_summary b).data)]
      | none => [])
  ++ (match sectionsGet secs "skills" with
      | some b => [("<!-- SKILLS_START -->".data, "<!-- SKILLS_END -->".data, (build_skills b).data)]
      | none => [])
  ++ (match sectionsGet secs "certifications" with
      | some b => [("<!-- CERTIFICATIONS_START -->".data, "<!-- CERTIFICATIONS_END -->".data,
          (build_certifications b).data)]
      | none => [])
  ++ (match sectionsGet secs "languages" with
      | some b => [("<!-- LANGUAGES_START -->".data, "<!-- LANGUAGES_END -->".data,
          (build_languages b).data)]
      | none => [])
  ++ (match sectionsGet secs "education" with
      | some b => [("<!-- EDUCATION_START -->".data, "<!-- EDUCATION_END -->".data,
          (build_education b).data)]
      | none => [])
  ++ (match sectionsGet secs "work_experience" with
      | some b => [("<!-- WORK_EXPERIENCE_START -->".data, "<!-- WORK_EXPERIENCE_END -->".data,
          (build_work b).data)]
      | none => [])

/-- The sequence of replace_block applications of main. -/
def applyBlocksL (blocks : List (List Char × List Char × List Char)) (html : List Char) : List Char :=
  blocks.foldl (fun h b => replaceBlockL b.1 b.2.1 b.2.2 h) html

/-- The trailing-newline adjustment of main before the file is written.
-/
def ensureNlL (l : List Char) : List Char :=
  if l.getLast? = some '\n' then l else l ++ nlL

/-- The whole HTML update of main as a pure function from the document
source and the current page text to the written page text. -/
def updateHtml (dox html : String) : String :=
  String.mk (ensureNlL (applyBlocksL (blocksForL dox) html.data))

end Html



namespace Html

/-- Well-formedness of a document tail with respect to a block list: each
marker pair occurs in order, the start marker has no earlier occurrence
in the rewritten prefix before it, the end marker has no earlier
occurrence in the old region or in the freshly rendered region, and the
rest is well formed after the rewritten region. -/
def ShapeOk : List (List Char × List Char × List Char) → List Char → List Char → Prop
  | [], _, _ => True
  | b :: bs, P, tail =>
    ∃ t c q, tail = t ++ b.1 ++ c ++ b.2.1 ++ q
      ∧ firstSplit b.1 ((P ++ t) ++ b.1) = some (P ++ t, [])
      ∧ firstSplit b.2.1 (c ++ b.2.1) = some (c, [])
      ∧ firstSplit b.2.1 ((nlL ++ b.2.2 ++ nlL) ++ b.2.1) = some (nlL ++ b.2.2 ++ nlL, [])
      ∧ ShapeOk bs (P ++ t ++ b.1 ++ nlL ++ b.2.2 ++ nlL ++ b.2.1) q

/-- A document tail whose regions already hold the rendered content. -/
def DoneOk : List (List Char × List Char × List Char) → List Char → List Char → Prop
  | [], _, _ => True
  | b :: bs, P, tail =>
    ∃ t q, tail = t ++ b.1 ++ (nlL ++ b.2.2 ++ nlL) ++ b.2.1 ++ q
      ∧ firstSplit b.1 ((P ++ t) ++ b.1) = some (P ++ t, [])
      ∧ firstSplit b.2.1 ((nlL ++ b.2.2 ++ nlL) ++ b.2.1) = some (nlL ++ b.2.2 ++ nlL, [])
      ∧ DoneOk bs (P ++ t ++ b.1 ++ nlL ++ b.2.2 ++ nlL ++ b.2.1) q

end Html

/-- Second definition for the refinement claim C2, following the words of
the specification: a token containing an at sign is an email; otherwise a
case-insensitive linkedin occurrence is a LinkedIn link; otherwise a
github occurrence is a GitHub link; otherwise a parenthesised leading
digit is a phone; any remaining token is a location. -/
inductive SpecCKind where
  | email
  | linkedin
  | github
  | phone
  | location
deriving DecidableEq

/-- The claimed fixed-priority classification, written from the words of
the specification (see SpecCKind). -/
def specContactKind (p : String) : SpecCKind :=
  if p.data.any (fun c => c = '@') then .email
  else if occursB "linkedin".data (lowerL p.data) then .linkedin
  else if occursB "github".data p.data then .github
  else if Html.phoneTestB p.data then .phone
  else .location

/-- The evident embedding of the claimed classes into the classes of the
HTML builder. -/
def specToHtml : SpecCKind → Html.CKind
  | .email => .email
  | .linkedin => .linkedin
  | .github => .github
  | .phone => .phone
  | .location => .location

/-- The evident embedding of the claimed classes into the classes of the
LaTeX builder. -/
def specToTex : SpecCKind → Tex.TKind
  | .email => .email
  | .linkedin => .linkedin
  | .github => .github
  | .phone => .phone
  | .location => .location

/-- An inert line for C9: after stripping it contains no angle bracket
and does not start with a dash. -/
def inertLine (l : List Char) : Bool :=
  (stripL l).all (fun c => c != '<') && !(List.isPrefixOf "-".data (stripL l))


/-! Lemmas about firstSplit, the leftmost-literal-match primitive. -/

/-- A successful firstSplit decomposes its input. -/
theorem firstSplit_eq_append {pat l p r : List Char}
    (h : firstSplit pat l = some (p, r)) : l = p ++ pat ++ r := by
  induction l generalizing p r with
  | nil =>
    rw [firstSplit] at h
    split at h
    case isTrue hp =>
      have hpat : pat = [] := List.prefix_nil.mp ((List.isPrefixOf_iff_prefix).mp hp)
      injection h with h'
      injection h' with h1 h2
      subst h1
      subst h2
      simp [hpat]
    case isFalse hp => exact absurd h (by simp)
  | cons c t ih =>
    rw [firstSplit] at h
    split at h
    case isTrue hp =>
      obtain ⟨u, hu⟩ := (List.isPrefixOf_iff_prefix).mp hp
      injection h with h'
      injection h' with h1 h2
      subst h1
      subst h2
      rw [← hu]
      simp [List.drop_left]
    case isFalse hp =>
      cases hfs : firstSplit pat t with
      | none => rw [hfs] at h; exact absurd h (by simp)
      | some pr =>
        obtain ⟨p', r'⟩ := pr
        rw [hfs] at h
        injection h with h'
        injection h' with h1 h2
        subst h1
        subst h2
        simp [ih hfs]

/-- firstSplit finds a pattern placed at the very front. -/
theorem firstSplit_append_self (pat X : List Char) :
    firstSplit pat (pat ++ X) = some ([], X) := by
  cases hpx : pat ++ X with
  | nil =>
    have hp : pat = [] := by
      cases pat with
      | nil => rfl
      | cons a b => simp at hpx
    have hX : X = [] := by
      cases X with
      | nil => rfl
      | cons a b => rw [hp] at hpx; simp at hpx
    subst hp
    subst hX
    simp [firstSplit, List.isPrefixOf]
  | cons c t =>
    have hpre : pat.isPrefixOf (c :: t) = true := by
      rw [List.isPrefixOf_iff_prefix, ← hpx]
      exact List.prefix_append pat X
    rw [firstSplit, if_pos hpre, ← hpx, List.drop_left]

/-- Whether a pattern is a prefix of a list that contains that very
pattern beyond position p does not depend on what follows the embedded
pattern. -/
theorem isPrefixOf_embed_indep (pat p X Y : List Char) :
    pat.isPrefixOf (p ++ pat ++ X) = pat.isPrefixOf (p ++ pat ++ Y) := by
  have htake : ∀ Z : List Char, List.take pat.length ((p ++ pat) ++ Z) = List.take pat.length (p ++ pat) ++ [] := by
    intro Z
    rw [List.take_append_eq_append_take]
    have : pat.length - (p ++ pat).length = 0 := by simp
    rw [this]
    simp
  have hiff : pat.isPrefixOf (p ++ pat ++ X) = true ↔ pat.isPrefixOf (p ++ pat ++ Y) = true := by
    rw [List.isPrefixOf_iff_prefix, List.isPrefixOf_iff_prefix, List.prefix_iff_eq_take,
      List.prefix_iff_eq_take, List.append_assoc, List.append_assoc, ← List.append_assoc p pat X,
      ← List.append_assoc p pat Y, htake X, htake Y]
  cases hx : pat.isPrefixOf (p ++ pat ++ X) with
  | false =>
    cases hy : pat.isPrefixOf (p ++ pat ++ Y) with
    | false => rfl
    | true => rw [hx, hy] at hiff; exact absurd (hiff.mpr rfl) (by decide)
  | true =>
    cases hy : pat.isPrefixOf (p ++ pat ++ Y) with
    | true => rfl
    | false => rw [hx, hy] at hiff; exact absurd (hiff.mp rfl) (by decide)

/-- Stability of firstSplit: once a decomposition at an embedded pattern
has been found, the text after the pattern can be replaced freely. -/
theorem firstSplit_stable {pat p X : List Char}
    (h : firstSplit pat (p ++ pat ++ X) = some (p, X)) (Y : List Char) :
    firstSplit pat (p ++ pat ++ Y) = some (p, Y) := by
  induction p generalizing X Y with
  | nil => simpa using firstSplit_append_self pat Y
  | cons c p' ih =>
    have hx : (c :: p') ++ pat ++ X = c :: (p' ++ pat ++ X) := by simp
    have hy : (c :: p') ++ pat ++ Y = c :: (p' ++ pat ++ Y) := by simp
    rw [hx] at h
    rw [hy]
    rw [firstSplit] at h
    rw [firstSplit]
    by_cases hp : pat.isPrefixOf (c :: (p' ++ pat ++ X)) = true
    · rw [if_pos hp] at h
      injection h with h'
      injection h' with h1 h2
      exact absurd h1 (by simp)
    · have hp' : pat.isPrefixOf (c :: (p' ++ pat ++ Y)) = false := by
        have := isPrefixOf_embed_indep pat (c :: p') X Y
        rw [hx, hy] at this
        rw [← this]
        exact Bool.of_not_eq_true hp
      rw [if_neg hp] at h
      rw [if_neg (by rw [hp']; decide)]
      cases hfs : firstSplit pat (p' ++ pat ++ X) with
      | none => rw [hfs] at h; exact absurd h (by simp)
      | some pr =>
        obtain ⟨q, r⟩ := pr
        rw [hfs] at h
        injection h with h'
        injection h' with h1 h2
        have hq : q = p' := by injection h1
        subst hq
        subst h2
        rw [ih hfs]

namespace Html

/-- Evaluation of replace_block when the document decomposes around the
marker pair: the block finds the start marker (no earlier occurrence),
finds the end marker right after the old region (no earlier occurrence),
and rewrites the region. -/
theorem replaceBlockL_found (s e i P t c q html : List Char)
    (hhtml : html = P ++ t ++ s ++ c ++ e ++ q)
    (h1 : firstSplit s ((P ++ t) ++ s) = some (P ++ t, []))
    (h2 : firstSplit e (c ++ e) = some (c, [])) :
    replaceBlockL s e i html = P ++ t ++ s ++ nlL ++ i ++ nlL ++ e ++ q := by
  have h1' : firstSplit s ((P ++ t) ++ s ++ ([] : List Char)) = some (P ++ t, []) := by
    simpa using h1
  have hs : firstSplit s html = some (P ++ t, c ++ e ++ q) := by
    rw [hhtml]
    have := firstSplit_stable h1' (c ++ e ++ q)
    simpa [List.append_assoc] using this
  have h2' : firstSplit e (c ++ e ++ ([] : List Char)) = some (c, []) := by simpa using h2
  have he : firstSplit e (c ++ e ++ q) = some (c, q) := by
    simpa [List.append_assoc] using firstSplit_stable h2' q
  rw [replaceBlockL, hs]
  simp only [he]

/-- Running the block sequence over a well-formed document rewrites each
region once and leaves a document whose regions hold the rendered
content. -/
theorem applyBlocks_shape :
    ∀ (bs : List (List Char × List Char × List Char)) (P tail : List Char),
      ShapeOk bs P tail →
      ∃ tail2, applyBlocksL bs (P ++ tail) = P ++ tail2 ∧ DoneOk bs P tail2 := by
  intro bs
  induction bs with
  | nil => exact fun P tail _ => ⟨tail, rfl, trivial⟩
  | cons b bs ih =>
    intro P tail hsh
    obtain ⟨t, c, q, htail, h1, h2, h3, hrec⟩ := hsh
    have hstep : replaceBlockL b.1 b.2.1 b.2.2 (P ++ tail)
        = (P ++ t ++ b.1 ++ nlL ++ b.2.2 ++ nlL ++ b.2.1) ++ q := by
      have := replaceBlockL_found b.1 b.2.1 b.2.2 P t c q (P ++ tail)
        (by rw [htail]; simp [List.append_assoc]) h1 h2
      simpa [List.append_assoc] using this
    obtain ⟨q2, happ, hdone⟩ := ih (P ++ t ++ b.1 ++ nlL ++ b.2.2 ++ nlL ++ b.2.1) q hrec
    refine ⟨t ++ b.1 ++ (nlL ++ b.2.2 ++ nlL) ++ b.2.1 ++ q2, ?_, ?_⟩
    · have : applyBlocksL (b :: bs) (P ++ tail)
          = applyBlocksL bs (replaceBlockL b.1 b.2.1 b.2.2 (P ++ tail)) := rfl
      rw [this, hstep, happ]
      simp [List.append_assoc]
    · exact ⟨t, q2, by simp [List.append_assoc], h1, h3, hdone⟩

/-- Running the block sequence over an already rewritten document changes
nothing. -/
theorem applyBlocks_done :
    ∀ (bs : List (List Char × List Char × List Char)) (P tail : List Char),
      DoneOk bs P tail → applyBlocksL bs (P ++ tail) = P ++ tail := by
  intro bs
  induction bs with
  | nil => exact fun P tail _ => rfl
  | cons b bs ih =>
    intro P tail hdn
    obtain ⟨t, q, htail, h1, h3, hrec⟩ := hdn
    have hstep : replaceBlockL b.1 b.2.1 b.2.2 (P ++ tail)
        = (P ++ t ++ b.1 ++ nlL ++ b.2.2 ++ nlL ++ b.2.1) ++ q := by
      have := replaceBlockL_found b.1 b.2.1 b.2.2 P t (nlL ++ b.2.2 ++ nlL) q (P ++ tail)
        (by rw [htail]; simp [List.append_assoc]) h1 h3
      simpa [List.append_assoc] using this
    have : applyBlocksL (b :: bs) (P ++ tail)
        = applyBlocksL bs (replaceBlockL b.1 b.2.1 b.2.2 (P ++ tail)) := rfl
    rw [this, hstep, ih _ _ hrec, htail]
    simp [List.append_assoc]

/-- Whatever follows the final region does not disturb rewrittenness. -/
theorem doneOk_extend :
    ∀ (bs : List (List Char × List Char × List Char)) (P tail z : List Char),
      DoneOk bs P tail → DoneOk bs P (tail ++ z) := by
  intro bs
  induction bs with
  | nil => exact fun _ _ _ _ => trivial
  | cons b bs ih =>
    intro P tail z hdn
    obtain ⟨t, q, htail, h1, h3, hrec⟩ := hdn
    exact ⟨t, q ++ z, by rw [htail]; simp [List.append_assoc], h1, h3, ih _ _ z hrec⟩

end Html

/-- C6: running the HTML update a second time on its own output, with the
same DOX source, is idempotent.  The hypotheses state that the current
page is well formed for the marker pairs the source makes main rewrite
(each marker pair present in order, no stray marker occurrences before
its region, none inside the freshly rendered content), and that the
rendered content is backslash-free (so that the literal-replacement model
of re.sub agrees with Python, which would interpret backslash escapes in
the replacement).  Each region then already holds after one run exactly
what the second run renders, and the second run, including the
trailing-newline adjustment, leaves the document unchanged. -/
theorem c6_update_html_idempotent (dox html : String)
    (hshape : Html.ShapeOk (Html.blocksForL dox) [] html.data)
    (_hnb : (Html.blocksForL dox).all (fun b => b.2.2.all (fun c => c != '\\')) = true) :
    Html.updateHtml dox (Html.updateHtml dox html) = Html.updateHtml dox html := by
  obtain ⟨tail2, happ, hdone⟩ := Html.applyBlocks_shape (Html.blocksForL dox) [] html.data hshape
  have happ' : Html.applyBlocksL (Html.blocksForL dox) html.data = tail2 := by simpa using happ
  have hrun2 : ∀ l2 : List Char, Html.DoneOk (Html.blocksForL dox) [] l2 →
      Html.applyBlocksL (Html.blocksForL dox) l2 = l2 := by
    intro l2 hd
    simpa using Html.applyBlocks_done (Html.blocksForL dox) [] l2 hd
  simp only [Html.updateHtml]
  rw [happ']
  by_cases hl : tail2.getLast? = some '\n'
  · simp only [Html.ensureNlL, if_pos hl]
    rw [hrun2 tail2 hdone]
    simp only [if_pos hl]
  · simp only [Html.ensureNlL, if_neg hl]
    rw [hrun2 (tail2 ++ Html.nlL) (Html.doneOk_extend _ [] tail2 Html.nlL hdone)]
    have hcat : (tail2 ++ Html.nlL).getLast? = some '\n' := List.getLast?_concat tail2
    simp only [if_pos hcat]

/-- Witness for C6: a one-section document and a page holding its marker
pair; all hypotheses hold by computation and the update is idempotent. -/
theorem c6_update_html_idempotent_witness :
    Html.updateHtml "@section skills S\n- <b>K</b>: A\n*/"
        (Html.updateHtml "@section skills S\n- <b>K</b>: A\n*/"
          "a<!-- SKILLS_START -->old<!-- SKILLS_END -->b\n")
      = Html.updateHtml "@section skills S\n- <b>K</b>: A\n*/"
          "a<!-- SKILLS_START -->old<!-- SKILLS_END -->b\n" := by
  apply c6_update_html_idempotent
  · refine ⟨"a".data, "old".data, "b\n".data, by decide, by decide, by decide, by decide, trivial⟩
  · decide

/-- C1: for a skills value string, comma splitting respects balanced
parenthesis nesting in both builders: the string with a parenthesised
comma splits into exactly its two values, both for split_skills of the
HTML script and for the regex-based split (with its strip-and-filter
list comprehension) of the LaTeX script. -/
theorem c1_paren_aware_comma_split :
    Html.split_skills "A (x, y), B" = ["A (x, y)", "B"]
      ∧ (Tex.texSkillVals "A (x, y), B".data).map String.mk = ["A (x, y)", "B"] := by
  exact ⟨by rfl, by rfl⟩

/-- C7 counterexample: a comma inside unbalanced parentheses.  The HTML
character scanner keeps the comma (depth one is nonzero), but the LaTeX
regex split does separate there, because its lookahead only asks whether
the next parenthesis character is a closing one; so the claim that both
splitters never split at nonzero depth is false, as the third conjunct
records. -/
theorem c7_counterexample :
    Html.split_skills "(a, b" = ["(a, b"]
      ∧ (Tex.texSkillVals "(a, b".data).map String.mk = ["(a", "b"]
      ∧ (Tex.texSkillVals "(a, b".data).map String.mk ≠ ["(a, b"] := by
  refine ⟨by rfl, by rfl, by decide⟩

/-- C7 amended: in the HTML character scanner a comma read at nonzero
parenthesis depth (positive or negative) is appended to the current piece
like an ordinary character and never acts as a separator; the LaTeX regex
split instead separates at any comma not followed by a closing
parenthesis before the next opening one, so it can split inside
unbalanced parentheses (see the counterexample). -/
theorem c7_comma_nonzero_depth_html (res : List (List Char)) (cur : List Char) (d : Int)
    (hd : d ≠ 0) :
    Html.splitSkillsStep (res, cur, d) ',' = (res, cur ++ [','], d) := by
  have h1 : ¬((',' : Char) = '(') := by decide
  have h2 : ¬((',' : Char) = ')') := by decide
  have h3 : ¬((',' : Char) = ',' ∧ d = 0) := fun h => hd h.2
  simp only [Html.splitSkillsStep, if_neg h1, if_neg h2]
  rw [if_neg (by simp [hd])]

/-- Witness for the amended C7: at depth one the comma is carried into
the current piece. -/
theorem c7_comma_nonzero_depth_html_witness :
    Html.splitSkillsStep ([], "x".data, 1) ',' = ([], "x,".data, 1) := by
  exact c7_comma_nonzero_depth_html [] "x".data 1 (by decide)

/-- C5 counterexample: the LaTeX contact builder splices the raw token
into the contact macro without escape_latex (first and third conjuncts:
the ampersand stays unescaped although escape_latex would rewrite it),
and the HTML skills builder splices the raw value into the badge with no
entity escaping (the ampersand occurs verbatim and no entity form
occurs). -/
theorem c5_counterexample :
    Tex.texContactLine "a&b@c.d" = some "\\contactitem\x7benvelope\x7d\x7ba&b@c.d\x7d"
      ∧ Tex.escape_latex "a&b@c.d" = "a\\&b@c.d"
      ∧ Tex.texContactLine "a&b@c.d"
          ≠ some ("\\contactitem\x7benvelope\x7d\x7b" ++ Tex.escape_latex "a&b@c.d" ++ "\x7d")
      ∧ occursB "A&B".data (Html.build_skills "- <b>K</b>: A&B").data = true
      ∧ occursB "A&amp;B".data (Html.build_skills "- <b>K</b>: A&B").data = false := by
  refine ⟨by rfl, by rfl, by decide, by rfl, by rfl⟩

/-- C5 amended: escaping is not applied to every field.  In the LaTeX
script the contact tokens (and the name) are interpolated raw: every
token classified as an email is spliced verbatim into the contact macro,
with no escape_latex call; the HTML script applies no entity escaping at
all (see the counterexample).  escape_latex is used only for the summary,
skills, certifications, languages, experience and education fields. -/
theorem c5_contact_spliced_raw (p : String)
    (h1 : p.data.any (fun c => c = '@') = true)
    (h2 : occursB "linkedin".data (lowerL p.data) = false)
    (h3 : occursB "github".data (lowerL p.data) = false) :
    Tex.texContactLine p = some ("\\contactitem\x7benvelope\x7d\x7b" ++ p ++ "\x7d") := by
  unfold Tex.texContactLine Tex.texContactKind
  rw [h1, h2, h3]
  rfl

/-- Witness for the amended C5: an ampersand-bearing address reaches the
macro unescaped. -/
theorem c5_contact_spliced_raw_witness :
    Tex.texContactLine "a&b@c.d" = some ("\\contactitem\x7benvelope\x7d\x7b" ++ "a&b@c.d" ++ "\x7d") := by
  exact c5_contact_spliced_raw "a&b@c.d" (by rfl) (by rfl) (by rfl)

/-- A successful two-field parse pins down the head of the line. -/
theorem parseBoldFillEm_starts {x : List Char} {lr : List Char × List Char}
    (h : Html.parseBoldFillEm x = some lr) : List.isPrefixOf "<b>".data x = true := by
  by_cases hp : List.isPrefixOf "<b>".data x = true
  · exact hp
  · rw [Html.parseBoldFillEm, if_neg hp] at h
    exact absurd h (by simp)

/-- C4 counterexample: the LaTeX education builder has no digit
heuristic.  A two-field degree line whose second field contains no digit
is still rendered as the degree and dates of the entry (the institution
comes from the first body line instead), so the claim that both builders
classify a digitless two-field line as the institution line is false. -/
theorem c4_counterexample :
    Tex.build_education "Uni\n<b>Deg</b> | <em>City</em>"
        = "\\educationentry\x7bUni\x7d\x7bDeg\x7d\x7bCity\x7d\x7b\x7d"
      ∧ "City".data.any isDigitChar = false := by
  exact ⟨by rfl, by rfl⟩

/-- C4 amended: the digit heuristic governs only the HTML education
builder.  For any loop state and any line matching the two-field header
pattern, a digit in the (stripped) second field makes the line a
degree-and-dates line: the open degree is flushed and the new one opened,
with the institution fields untouched; without a digit the line sets the
institution and location and touches nothing else.  The LaTeX builder
(see the counterexample) classifies without any digit test. -/
theorem c4_html_digit_heuristic (st : Html.EduState) (line l r : List Char)
    (hparse : Html.parseBoldFillEm (stripL line) = some (l, r)) :
    ((stripL r).any isDigitChar = true →
      Html.eduStep st line =
        { st with degrees := Html.eduFlush st, curDeg := some (String.mk (stripL l)),
                  curDates := some (String.mk (stripL r)), curGpa := none })
    ∧ ((stripL r).any isDigitChar = false →
      Html.eduStep st line =
        { st with univName := String.mk (stripL l), univLoc := String.mk (stripL r) }) := by
  have hpre := parseBoldFillEm_starts hparse
  obtain ⟨u, hu⟩ := (List.isPrefixOf_iff_prefix).mp hpre
  have hne : ¬(stripL line = [] ∨ stripL line = "---".data) := by
    rw [← hu]
    rintro (h | h) <;> simp at h
  rw [Html.eduStep, if_neg hne, hparse]
  constructor
  · intro hdig
    simp only [hdig, if_pos]
  · intro hdig
    simp only [hdig]
    rfl

/-- Witness for the amended C4: a dated degree line and a digitless
institution line, classified accordingly. -/
theorem c4_html_digit_heuristic_witness :
    Html.eduStep Html.initEdu "<b>BSc</b> @fill <em>2020</em>".data =
        { Html.initEdu with degrees := Html.eduFlush Html.initEdu, curDeg := some "BSc",
                            curDates := some "2020", curGpa := none }
      ∧ Html.eduStep Html.initEdu "<b>U</b> @fill <em>City</em>".data =
        { Html.initEdu with univName := "U", univLoc := "City" } := by
  constructor
  · exact (c4_html_digit_heuristic Html.initEdu "<b>BSc</b> @fill <em>2020</em>".data
      "BSc".data "2020".data (by rfl)).1 (by rfl)
  · exact (c4_html_digit_heuristic Html.initEdu "<b>U</b> @fill <em>City</em>".data
      "U".data "City".data (by rfl)).2 (by rfl)

/-- Occurrence survives a character map. -/
theorem occursB_map (f : Char → Char) {pat l : List Char} (h : occursB pat l = true) :
    occursB (pat.map f) (l.map f) = true := by
  unfold occursB at h ⊢
  rw [List.any_eq_true] at h ⊢
  obtain ⟨t, ht, hpre⟩ := h
  refine ⟨t.map f, ?_, ?_⟩
  · rw [List.mem_tails] at ht ⊢
    exact ht.map f
  · rw [List.isPrefixOf_iff_prefix] at hpre ⊢
    exact hpre.map f

/-- C2 counterexample: the claimed priority is not what either builder
implements.  The HTML builder has an extra online-CV class ahead of the
phone and location tests, so the bracketed online-CV token is not
classified as a location; and the LaTeX builder tests the phone heuristic
before the linkedin test, so a linkedin-mentioning token with a
parenthesised digit is classified as a phone, not a LinkedIn link. -/
theorem c2_counterexample :
    Html.contactKind "[Online CV](https://x.io)" = Html.CKind.onlinecv
      ∧ specContactKind "[Online CV](https://x.io)" = SpecCKind.location
      ∧ Html.contactKind "[Online CV](https://x.io)"
          ≠ specToHtml (specContactKind "[Online CV](https://x.io)")
      ∧ Tex.texContactKind "linkedin (+1) 23" = Tex.TKind.phone
      ∧ specContactKind "linkedin (+1) 23" = SpecCKind.linkedin
      ∧ Tex.texContactKind "linkedin (+1) 23"
          ≠ specToTex (specContactKind "linkedin (+1) 23") := by
  refine ⟨by rfl, by rfl, by decide, by rfl, by rfl, by decide⟩

/-- C2 amended: both builders agree with the claimed priority on tokens
that avoid the divergent cases: no online-CV literal (the extra HTML
class), github spelled so that the case conventions coincide, no
linkedin or github mention in tokens holding an at sign (the LaTeX email
guard), and none in tokens matching the phone heuristic (the LaTeX phone
test runs before the profile tests). -/
theorem c2_contact_priority_amended (p : String)
    (hocv : occursB "Online CV".data p.data = false)
    (hgh : occursB "github".data (lowerL p.data) = occursB "github".data p.data)
    (hem : p.data.any (fun c => c = '@') = true →
      occursB "linkedin".data (lowerL p.data) = false
        ∧ occursB "github".data (lowerL p.data) = false)
    (hph : Html.phoneTestB p.data = true →
      occursB "linkedin".data (lowerL p.data) = false
        ∧ occursB "github".data (lowerL p.data) = false) :
    Html.contactKind p = specToHtml (specContactKind p)
      ∧ Tex.texContactKind p = specToTex (specContactKind p) := by
  have hGS : occursB "GitHub".data p.data = true → occursB "github".data (lowerL p.data) = true := by
    intro h
    have := occursB_map Char.toLower h
    simpa [lowerL] using this
  cases hA : p.data.any (fun c => c = '@') with
  | true =>
    obtain ⟨hL, hG⟩ := hem hA
    simp [Html.contactKind, Tex.texContactKind, specContactKind, specToHtml, specToTex, hA, hL, hG]
  | false =>
    cases hL : occursB "linkedin".data (lowerL p.data) with
    | true =>
      have hPh : Html.phoneTestB p.data = false := by
        cases hPh : Html.phoneTestB p.data with
        | true => exact absurd hL (by simp [(hph hPh).1])
        | false => rfl
      simp [Html.contactKind, Tex.texContactKind, specContactKind, specToHtml, specToTex, hA, hL, hPh]
    | false =>
      cases hGs : occursB "github".data p.data with
      | true =>
        have hG : occursB "github".data (lowerL p.data) = true := by rw [hgh]; exact hGs
        have hPh : Html.phoneTestB p.data = false := by
          cases hPh : Html.phoneTestB p.data with
          | true => exact absurd hG (by simp [(hph hPh).2])
          | false => rfl
        simp [Html.contactKind, Tex.texContactKind, specContactKind, specToHtml, specToTex, hA,
          hL, hG, hGs, hPh]
      | false =>
        have hG : occursB "github".data (lowerL p.data) = false := by rw [hgh]; exact hGs
        have hGS : occursB "GitHub".data p.data = false := by
          cases hGS2 : occursB "GitHub".data p.data with
          | true => exact absurd (hGS hGS2) (by simp [hG])
          | false => rfl
        cases hPh : Html.phoneTestB p.data with
        | true =>
          simp [Html.contactKind, Tex.texContactKind, specContactKind, specToHtml, specToTex, hA,
            hL, hG, hGs, hGS, hPh, hocv]
        | false =>
          simp [Html.contactKind, Tex.texContactKind, specContactKind, specToHtml, specToTex, hA,
            hL, hG, hGs, hGS, hPh, hocv]

/-- Witness for the amended C2: a plain email token satisfies every
hypothesis and is classified as email by both builders and the claimed
priority. -/
theorem c2_contact_priority_amended_witness :
    Html.contactKind "john@example.com" = specToHtml (specContactKind "john@example.com")
      ∧ Tex.texContactKind "john@example.com" = specToTex (specContactKind "john@example.com") := by
  exact c2_contact_priority_amended "john@example.com" (by rfl) (by rfl)
    (fun _ => ⟨by rfl, by rfl⟩) (fun _ => ⟨by rfl, by rfl⟩)

/-- Inserting an element of maximal key past elements of smaller key
appends it. -/
theorem insertByKey_all_lt {x : String} :
    ∀ l : List String, (∀ y ∈ l, Html.orderKey y < Html.orderKey x) →
      Html.insertByKey x l = l ++ [x] := by
  intro l
  induction l with
  | nil => exact fun _ => rfl
  | cons y ys ih =>
    intro h
    rw [Html.insertByKey, if_pos (h y (by simp)), ih (fun z hz => h z (by simp [hz]))]
    rfl

/-- Insertion of a smaller-keyed element stays left of a trailing
maximal element. -/
theorem insertByKey_append_max {x c : String} (hcx : Html.orderKey c < Html.orderKey x) :
    ∀ S : List String, Html.insertByKey c (S ++ [x]) = Html.insertByKey c S ++ [x] := by
  intro S
  induction S with
  | nil =>
    rw [List.nil_append]
    show (if Html.orderKey x < Html.orderKey c then x :: Html.insertByKey c []
      else c :: x :: []) = Html.insertByKey c [] ++ [x]
    rw [if_neg (by omega)]
    rfl
  | cons y S' ih =>
    by_cases hy : Html.orderKey y < Html.orderKey c
    · rw [List.cons_append, Html.insertByKey, if_pos hy, ih, Html.insertByKey, if_pos hy]
      rfl
    · rw [List.cons_append, Html.insertByKey, if_neg hy, Html.insertByKey, if_neg hy]
      rfl

/-- Members of an insertion come from the element or the list. -/
theorem mem_insertByKey {z x : String} :
    ∀ {l : List String}, z ∈ Html.insertByKey x l → z = x ∨ z ∈ l := by
  intro l
  induction l with
  | nil => intro h; simp [Html.insertByKey] at h; exact Or.inl h
  | cons y ys ih =>
    intro h
    rw [Html.insertByKey] at h
    split at h
    · rcases List.mem_cons.mp h with h' | h'
      · exact Or.inr (by simp [h'])
      · rcases ih h' with h'' | h''
        · exact Or.inl h''
        · exact Or.inr (by simp [h''])
    · rcases List.mem_cons.mp h with h' | h'
      · exact Or.inl h'
      · exact Or.inr h'

/-- Members of the sorted list come from the input. -/
theorem mem_sortByKey {z : String} :
    ∀ {l : List String}, z ∈ Html.sortByKey l → z ∈ l := by
  intro l
  induction l with
  | nil => intro h; exact absurd h (by simp [Html.sortByKey])
  | cons y ys ih =>
    intro h
    rcases mem_insertByKey h with h' | h'
    · simp [h']
    · simp [ih h']

/-- A unique maximal-key element sorts to the back, wherever it started.
-/
theorem sortByKey_max_last {x : String} (hx : Html.orderKey x = 5) :
    ∀ (pre post : List String), (∀ y ∈ pre ++ post, Html.orderKey y ≤ 4) →
      Html.sortByKey (pre ++ x :: post) = Html.sortByKey (pre ++ post) ++ [x] := by
  intro pre
  induction pre with
  | nil =>
    intro post h
    show Html.insertByKey x (Html.sortByKey post) = Html.sortByKey post ++ [x]
    refine insertByKey_all_lt _ (fun y hy => ?_)
    have := h y (by simpa using mem_sortByKey hy)
    omega
  | cons c pre' ih =>
    intro post h
    have hc : Html.orderKey c < Html.orderKey x := by
      have := h c (by simp)
      omega
    show Html.insertByKey c (Html.sortByKey (pre' ++ x :: post))
        = Html.insertByKey c (Html.sortByKey (pre' ++ post)) ++ [x]
    rw [ih post (fun y hy => h y (by simp at hy ⊢; tauto)), insertByKey_append_max hc]

/-- C3 counterexample: the LaTeX renderer emits contact items in source
order, so a document whose single location-like token comes first renders
the location first, not last. -/
theorem c3_counterexample :
    Tex.texContactLines "Hanoi | a@b.c"
        = ["\\contactitem\x7bmap-marker-alt\x7d\x7bHanoi\x7d", "\\contactitem\x7benvelope\x7d\x7ba@b.c\x7d"]
      ∧ (Tex.texContactLines "Hanoi | a@b.c").getLast?
          ≠ some "\\contactitem\x7bmap-marker-alt\x7d\x7bHanoi\x7d" := by
  refine ⟨by rfl, by decide⟩

/-- C3 amended: only the HTML renderer places the location last.  For a
contact line whose tokens contain exactly one location-like token (its
rendered item carries the maximal sort key, every other item a smaller
one), the stable sort of build_contact_info puts the location item at the
end of the rendered item list, whatever the source position; the LaTeX
renderer preserves source order instead (see the counterexample). -/
theorem c3_html_location_last (raw : String) (pre post : List (List Char)) (t : List Char)
    (hparts : Html.contactParts raw = pre ++ t :: post)
    (hloc : Html.orderKey (Html.contactItem (String.mk t)) = 5)
    (hoth : ∀ u ∈ pre ++ post, Html.orderKey (Html.contactItem (String.mk u)) ≤ 4) :
    Html.build_contact_info raw = String.intercalate "\n"
        (Html.sortByKey (((pre ++ post).map (fun p => Html.contactItem (String.mk p))))
          ++ [Html.contactItem (String.mk t)]) := by
  unfold Html.build_contact_info
  rw [hparts]
  have hmap : (pre ++ t :: post).map (fun p => Html.contactItem (String.mk p))
      = (pre.map (fun p => Html.contactItem (String.mk p)))
        ++ Html.contactItem (String.mk t)
          :: (post.map (fun p => Html.contactItem (String.mk p))) := by
    simp
  rw [hmap, sortByKey_max_last hloc _ _ ?side]
  · rw [← List.map_append]
  case side =>
    intro y hy
    rw [← List.map_append] at hy
    obtain ⟨u, hu, rfl⟩ := List.mem_map.mp hy
    exact hoth u hu

/-- Witness for the amended C3: the location token comes first in the
source yet renders last. -/
theorem c3_html_location_last_witness :
    Html.build_contact_info "Hanoi | a@b.c" = String.intercalate "\n"
        (Html.sortByKey [Html.contactItem "a@b.c"] ++ [Html.contactItem "Hanoi"]) := by
  have := c3_html_location_last "Hanoi | a@b.c" [] ["a@b.c".data] "Hanoi".data
    (by rfl) (by rfl) (by decide)
  simpa using this

/-- Prefix test is false at differing head characters. -/
theorem isPrefixOf_cons_false {a b : Char} (as bs : List Char) (h : ¬a = b) :
    List.isPrefixOf (a :: as) (b :: bs) = false := by
  cases hp : List.isPrefixOf (a :: as) (b :: bs) with
  | false => rfl
  | true =>
    have := (List.isPrefixOf_iff_prefix).mp hp
    rw [List.cons_prefix_cons] at this
    exact absurd this.1 h

namespace Html

/-- The two-field parser rejects a line that does not open with an angle
bracket. -/
theorem parseBoldFillEm_none {c : Char} (t : List Char) (h : ¬c = '<') :
    parseBoldFillEm (c :: t) = none := by
  rw [parseBoldFillEm, if_neg]
  rw [show "<b>".data = '<' :: 'b' :: '>' :: [] from rfl, isPrefixOf_cons_false _ _ (fun h' => h h'.symm)]
  exact fun h' => nomatch h'

/-- The position parser rejects a line that does not open with an angle
bracket. -/
theorem parseBoldOnly_none {c : Char} (t : List Char) (h : ¬c = '<') :
    parseBoldOnly (c :: t) = none := by
  rw [parseBoldOnly, if_neg]
  rw [show "<b>".data = '<' :: 'b' :: '>' :: [] from rfl, isPrefixOf_cons_false _ _ (fun h' => h h'.symm)]
  exact fun h' => nomatch h'

/-- The project parser rejects a line that does not open with an angle
bracket. -/
theorem parseItalFillEm_none {c : Char} (t : List Char) (h : ¬c = '<') :
    parseItalFillEm (c :: t) = none := by
  rw [parseItalFillEm, if_neg]
  rw [show "<i>".data = '<' :: 'i' :: '>' :: [] from rfl, isPrefixOf_cons_false _ _ (fun h' => h h'.symm)]
  exact fun h' => nomatch h'

/-- The section-header parser rejects a line that does not open with an
angle bracket. -/
theorem parseSectionHdr_none {c : Char} (t : List Char) (h : ¬c = '<') :
    parseSectionHdr (c :: t) = none := by
  rw [parseSectionHdr, if_neg, if_neg]
  · intro h'
    exact h (by injection h')
  · intro h'
    exact h (by injection h')

end Html

/-- Dropping leading elements that satisfy p does not reach past a final
element that fails it. -/
theorem dropWhile_append_singleton {p : Char → Bool} {c : Char} (hc : p c = false) :
    ∀ u : List Char, (u ++ [c]).dropWhile p = u.dropWhile p ++ [c] := by
  intro u
  induction u with
  | nil => simp [List.dropWhile, hc]
  | cons a u ih =>
    cases ha : p a with
    | true => simp [List.dropWhile, ha, ih]
    | false => simp [List.dropWhile, ha]

/-- Stripping on the right keeps a non-whitespace head. -/
theorem rstripL_cons (c : Char) (v : List Char) (hc : isSpaceChar c = false) :
    rstripL (c :: v) = c :: rstripL v := by
  unfold rstripL
  rw [List.reverse_cons, dropWhile_append_singleton hc, List.reverse_append]
  rfl

namespace Html

/-- A bullet line read while no project is open and no section label is
active changes nothing: the bullet is attached to nothing, silently. -/
theorem workStep_bullet_inert (st : WorkState) (l : List Char)
    (hproj : st.curProj = none) (hsec : st.curSection = none)
    (hb : List.isPrefixOf "- ".data (stripL l) = true
      ∨ List.isPrefixOf "  -".data l = true) :
    workStep st l = st := by
  have hdashrest : ∀ it, workStepDashRest st l it = st := by
    intro it
    rw [workStepDashRest]
    cases h9 : parseBoldItem it with
    | some ab => exact if_neg (by simp [hsec])
    | none => rw [hproj]
  by_cases ha : List.isPrefixOf "- ".data (stripL l) = true
  · obtain ⟨u, hu⟩ := (List.isPrefixOf_iff_prefix).mp ha
    have hu' : stripL l = '-' :: ' ' :: u := by rw [← hu]; rfl
    have hne : ¬(stripL l = [] ∨ stripL l = "---".data) := by
      rw [hu']
      rintro (h | h) <;> simp [List.cons.injEq] at h
    rw [workStep, if_neg hne, hu', parseBoldFillEm_none _ (by decide),
      parseBoldOnly_none _ (by decide), workStepTail, parseItalFillEm_none _ (by decide),
      parseSectionHdr_none _ (by decide), ← hu', if_pos ha, workStepDash,
      if_neg (by simp [hsec]), hdashrest]
  · have hn : List.isPrefixOf "  -".data l = true := hb.resolve_left ha
    obtain ⟨v, hv⟩ := (List.isPrefixOf_iff_prefix).mp hn
    have hl' : l = ' ' :: ' ' :: '-' :: v := by rw [← hv]; rfl
    have hstrip : stripL l = '-' :: rstripL v := by
      rw [hl']
      show rstripL (lstripL (' ' :: ' ' :: '-' :: v)) = _
      rw [show lstripL (' ' :: ' ' :: '-' :: v) = '-' :: v from by
        simp [lstripL, List.dropWhile, show isSpaceChar ' ' = true from rfl,
          show isSpaceChar '-' = false from rfl]]
      rw [rstripL_cons _ _ (by decide)]
    by_cases hne : stripL l = [] ∨ stripL l = "---".data
    · rw [workStep, if_pos hne]
    · rw [workStep, if_neg hne, hstrip, parseBoldFillEm_none _ (by decide),
        parseBoldOnly_none _ (by decide), workStepTail, parseItalFillEm_none _ (by decide),
        parseSectionHdr_none _ (by decide), ← hstrip, if_neg ha, if_pos hn,
        if_neg (by simp [hsec])]

end Html

/-- Bullet lines leave the parser state untouched while no project is
open and no section label is active. -/
theorem workFold_bullets :
    ∀ (p : List (List Char)) (st : Html.WorkState), st.curProj = none → st.curSection = none →
      (∀ l ∈ p, List.isPrefixOf "- ".data (stripL l) = true
        ∨ List.isPrefixOf "  -".data l = true) →
      p.foldl Html.workStep st = st := by
  intro p
  induction p with
  | nil => exact fun _ _ _ _ => rfl
  | cons l p ih =>
    intro st hproj hsec hb
    have hstep := Html.workStep_bullet_inert st l hproj hsec (hb l (by simp))
    show p.foldl Html.workStep (Html.workStep st l) = st
    rw [hstep]
    exact ih st hproj hsec (fun x hx => hb x (by simp [hx]))

/-- C10: in the HTML work-experience builder, every bullet line before
the first project-delimiter line is silently dropped.  While no project
record is open (and no section label has been seen) a bullet line leaves
the parser state unchanged, so the rendered output of a body that starts
with bullet lines is identical to the output of the body without them:
the items are attached to nothing, absent from the output, and no error
is reported (the builders are total functions). -/
theorem c10_orphan_bullets_dropped (pre rest : List (List Char))
    (hb : ∀ l ∈ pre, List.isPrefixOf "- ".data (stripL l) = true
      ∨ List.isPrefixOf "  -".data l = true) :
    Html.renderWork (pre ++ rest) = Html.renderWork rest := by
  have hfold : pre.foldl Html.workStep Html.initWork = Html.initWork :=
    workFold_bullets pre Html.initWork rfl rfl hb
  unfold Html.renderWork Html.workParsed
  rw [List.foldl_append, hfold]

/-- Witness for C10: an orphan bullet ahead of the first project line
does not change the rendered work-experience output. -/
theorem c10_orphan_bullets_dropped_witness :
    Html.renderWork (["- orphan".data]
        ++ ["<i>P</i> @fill <em>2020</em>".data, "<b>Responsibilities:</b>".data, "- kept".data])
      = Html.renderWork
          ["<i>P</i> @fill <em>2020</em>".data, "<b>Responsibilities:</b>".data, "- kept".data] := by
  exact c10_orphan_bullets_dropped _ _ (by decide)

/-- A pattern whose first character is absent from the text never
occurs. -/
theorem occursB_head_false {pat l : List Char} {c : Char} (hp : pat.head? = some c)
    (h : l.all (fun x => x != c) = true) : occursB pat l = false := by
  cases hocc : occursB pat l with
  | false => rfl
  | true =>
    exfalso
    unfold occursB at hocc
    rw [List.any_eq_true] at hocc
    obtain ⟨t, ht, hpre⟩ := hocc
    obtain ⟨u, hu⟩ := (List.isPrefixOf_iff_prefix).mp hpre
    cases pat with
    | nil => simp at hp
    | cons c0 pat' =>
      have hc0 : c0 = c := by simpa using hp
      have hmem : c0 ∈ t := by rw [← hu]; simp
      have hmem' : c0 ∈ l := ((List.mem_tails t l).mp ht).subset hmem
      rw [List.all_eq_true] at h
      have := h c0 hmem'
      rw [hc0] at this
      simp at this

/-- A split whose separator pattern occurs nowhere returns the whole
text as the only segment. -/
theorem splitPatGo_no_match (step : List Char → Option (List Char)) :
    ∀ (l : List Char) (f : Nat) (cur : List Char),
      l.length ≤ f → (∀ t ∈ l.tails, t = [] ∨ step t = none) →
      splitPatGo step f l cur = [cur.reverse ++ l] := by
  intro l
  induction l with
  | nil =>
    intro f cur _ _
    cases f with
    | zero => rfl
    | succ f => simp [splitPatGo]
  | cons c t ih =>
    intro f cur hf h
    cases f with
    | zero => simp at hf
    | succ f =>
      have hstep : step (c :: t) = none := by
        rcases h (c :: t) (by rw [List.mem_tails] : (c :: t) ∈ (c :: t).tails) with h' | h'
        · exact absurd h' (by simp)
        · exact h'
      rw [splitPatGo, hstep]
      rw [ih f (c :: cur) (by simpa using Nat.le_of_succ_le_succ (by simpa using hf))
        (fun u hu => h u (by rw [List.tails_cons]; simp [hu]))]
      simp

/-- An inert line has no dash-space prefix after stripping. -/
theorem inertLine_no_dash {l : List Char} (h : inertLine l = true) :
    List.isPrefixOf "- ".data (stripL l) = false := by
  rw [inertLine, Bool.and_eq_true] at h
  cases hp : List.isPrefixOf "- ".data (stripL l) with
  | false => rfl
  | true =>
    exfalso
    have h2 := h.2
    have : List.isPrefixOf "-".data (stripL l) = true := by
      rw [List.isPrefixOf_iff_prefix]
      exact List.IsPrefix.trans (by decide) ((List.isPrefixOf_iff_prefix).mp hp)
    simp [this] at h2

/-- An inert line is not a nested bullet either. -/
theorem inertLine_no_nested {l : List Char} (h : inertLine l = true) :
    List.isPrefixOf "  -".data l = false := by
  cases hp : List.isPrefixOf "  -".data l with
  | false => rfl
  | true =>
    exfalso
    obtain ⟨v, hv⟩ := (List.isPrefixOf_iff_prefix).mp hp
    have hl' : l = ' ' :: ' ' :: '-' :: v := by rw [← hv]; rfl
    have hstrip : stripL l = '-' :: rstripL v := by
      rw [hl']
      show rstripL (lstripL (' ' :: ' ' :: '-' :: v)) = _
      rw [show lstripL (' ' :: ' ' :: '-' :: v) = '-' :: v from by
        simp [lstripL, List.dropWhile, show isSpaceChar ' ' = true from rfl,
          show isSpaceChar '-' = false from rfl]]
      rw [rstripL_cons _ _ (by decide)]
    rw [inertLine, Bool.and_eq_true] at h
    have h2 := h.2
    rw [hstrip] at h2
    simp [List.isPrefixOf, show ('-' == '-') = true from rfl] at h2

/-- A nonempty inert line opens with a character other than an angle
bracket. -/
theorem inertLine_head {l : List Char} {c : Char} {t : List Char} (h : inertLine l = true)
    (hs : stripL l = c :: t) : ¬c = '<' := by
  rw [inertLine, Bool.and_eq_true] at h
  have h1 := h.1
  rw [hs, List.all_cons, Bool.and_eq_true] at h1
  intro hc
  rw [hc] at h1
  simp at h1

/-- The education loop of the HTML builder ignores inert lines. -/
theorem eduStep_inert (st : Html.EduState) (l : List Char) (h : inertLine l = true) :
    Html.eduStep st l = st := by
  by_cases hne : stripL l = [] ∨ stripL l = "---".data
  · rw [Html.eduStep, if_pos hne]
  · cases hs : stripL l with
    | nil => exact absurd (Or.inl hs) hne
    | cons c t =>
      rw [Html.eduStep, if_neg hne, hs, Html.parseBoldFillEm_none _ (inertLine_head h hs),
        ← hs, if_neg (by rw [inertLine_no_dash h]; exact fun h' => nomatch h')]

/-- The work loop of the HTML builder ignores inert lines. -/
theorem workStep_inert (st : Html.WorkState) (l : List Char) (h : inertLine l = true) :
    Html.workStep st l = st := by
  by_cases hne : stripL l = [] ∨ stripL l = "---".data
  · rw [Html.workStep, if_pos hne]
  · cases hs : stripL l with
    | nil => exact absurd (Or.inl hs) hne
    | cons c t =>
      rw [Html.workStep, if_neg hne, hs, Html.parseBoldFillEm_none _ (inertLine_head h hs),
        Html.parseBoldOnly_none _ (inertLine_head h hs), Html.workStepTail,
        Html.parseItalFillEm_none _ (inertLine_head h hs),
        Html.parseSectionHdr_none _ (inertLine_head h hs), ← hs,
        if_neg (by rw [inertLine_no_dash h]; exact fun h' => nomatch h'),
        if_neg (by rw [inertLine_no_nested h]; exact fun h' => nomatch h')]

/-- Inert lines contribute no dash lines. -/
theorem dashLines_inert {raw : List Char}
    (h : ∀ l ∈ splitLinesL raw, inertLine l = true) : dashLines raw = [] := by
  rw [dashLines, List.filter_eq_nil_iff]
  intro s hs
  rw [List.mem_map] at hs
  obtain ⟨l, hl, rfl⟩ := hs
  have h2 := h l hl
  rw [inertLine, Bool.and_eq_true] at h2
  have h3 := h2.2
  intro hcontra
  rw [Bool.and_eq_true] at hcontra
  rw [hcontra.2] at h3
  simp at h3

/-- Education fold over inert lines keeps the initial state. -/
theorem foldl_eduStep_inert :
    ∀ (lines : List (List Char)) (st : Html.EduState),
      (∀ l ∈ lines, inertLine l = true) → lines.foldl Html.eduStep st = st := by
  intro lines
  induction lines with
  | nil => exact fun _ _ => rfl
  | cons l ls ih =>
    intro st h
    show ls.foldl Html.eduStep (Html.eduStep st l) = st
    rw [eduStep_inert st l (h l (by simp))]
    exact ih st (fun x hx => h x (by simp [hx]))

/-- Work fold over inert lines keeps the initial state. -/
theorem foldl_workStep_inert :
    ∀ (lines : List (List Char)) (st : Html.WorkState),
      (∀ l ∈ lines, inertLine l = true) → lines.foldl Html.workStep st = st := by
  intro lines
  induction lines with
  | nil => exact fun _ _ => rfl
  | cons l ls ih =>
    intro st h
    show ls.foldl Html.workStep (Html.workStep st l) = st
    rw [workStep_inert st l (h l (by simp))]
    exact ih st (fun x hx => h x (by simp [hx]))

/-- Without bold markup the education scan of the LaTeX builder never
remembers a degree line. -/
theorem texEduScan_fst (ls : List (List Char))
    (h : ∀ l ∈ ls, occursB "<b>".data l = false) : (Tex.texEduScan ls).1 = [] := by
  have aux : ∀ (ms : List (List Char)) (init : List Char × List Char),
      (∀ l ∈ ms, occursB "<b>".data l = false) →
      (ms.foldl (fun dg line =>
        if occursB "<b>".data line && occursB "<em>".data line then (line, dg.2)
        else if List.isPrefixOf "GPA:".data line then (dg.1, line) else dg) init).1 = init.1 := by
    intro ms
    induction ms with
    | nil => exact fun _ _ => rfl
    | cons l ls ih =>
      intro init hm
      have hb : occursB "<b>".data l = false := hm l (by simp)
      have hrest : ∀ x ∈ ls, occursB "<b>".data x = false := fun x hx => hm x (by simp [hx])
      show (ls.foldl _ (if occursB "<b>".data l && occursB "<em>".data l then (l, init.2)
        else if List.isPrefixOf "GPA:".data l then (init.1, l) else init)).1 = init.1
      rw [hb, Bool.false_and, if_neg (by exact fun h' => nomatch h')]
      by_cases hg : List.isPrefixOf "GPA:".data l = true
      · rw [if_pos hg, ih (init.1, l) hrest]
      · rw [if_neg hg, ih init hrest]
  exact aux ls ([], []) h

/-- The education-split separator needs its literal. -/
theorem subSplitStep_none {t : List Char}
    (h : List.isPrefixOf "@subsection".data t = false) : Tex.subSplitStep t = none := by
  rw [Tex.subSplitStep, if_neg]
  rw [h]
  exact fun h' => nomatch h'

/-- The position-split separator needs its literal. -/
theorem subsubSplitStep_none {t : List Char}
    (h : List.isPrefixOf "@subsubsection".data t = false) : Tex.subsubSplitStep t = none := by
  rw [Tex.subsubSplitStep, if_neg]
  rw [h]
  exact fun h' => nomatch h'

/-- C9: every builder of both scripts maps a section body made of
non-matching lines to its well-formed fallback fragment (or the empty
string), and none can fail: all builders are total Lean functions, which
models the absence of exceptions in the Python originals (none of whose
operations on such input can raise).  The hypotheses say that every line
of the body (and of its stripped form, whose line list the education and
work builders use) is inert, and that no subsection or subsubsection
separator occurs. -/
theorem c9_builders_total_on_inert (raw : String)
    (hl1 : ∀ l ∈ splitLinesL raw.data, inertLine l = true)
    (hl2 : ∀ l ∈ splitLinesL (stripL raw.data), inertLine l = true)
    (hsub : occursB "@subsection".data raw.data = false)
    (hsubsub : occursB "@subsubsection".data raw.data = false) :
    Html.build_skills raw = "<div class=\"item\"><em>" ++ raw ++ "</em></div>"
      ∧ Html.build_certifications raw = "<li>No certifications listed</li>"
      ∧ Html.build_languages raw = "<li>No languages listed</li>"
      ∧ Html.build_education raw
          = "<ul class=\"list-unstyled resume-education-list\">\n<li>No education info</li>\n</ul>"
      ∧ Html.build_work raw = "<div class=\"item mb-3\"><em>No work experience parsed.</em></div>"
      ∧ Tex.build_skills raw = ""
      ∧ Tex.build_certifications raw = ""
      ∧ Tex.build_languages raw = ""
      ∧ Tex.build_experience raw = ""
      ∧ Tex.build_education raw = "" := by
  have hdash := dashLines_inert hl1
  have hnosub : ∀ t ∈ raw.data.tails, t = [] ∨ Tex.subSplitStep t = none := by
    intro t ht
    refine Or.inr (subSplitStep_none ?_)
    have := List.any_eq_false.mp (by rw [← occursB]; exact hsub) t ht
    cases hp : List.isPrefixOf "@subsection".data t with
    | false => rfl
    | true => exact absurd hp (by simpa using this)
  have hnosubsub : ∀ t ∈ raw.data.tails, t = [] ∨ Tex.subsubSplitStep t = none := by
    intro t ht
    refine Or.inr (subsubSplitStep_none ?_)
    have := List.any_eq_false.mp (by rw [← occursB]; exact hsubsub) t ht
    cases hp : List.isPrefixOf "@subsubsection".data t with
    | false => rfl
    | true => exact absurd hp (by simpa using this)
  refine ⟨?_, ?_, ?_, ?_, ?_, ?_, ?_, ?_, ?_, ?_⟩
  · simp [Html.build_skills, hdash]
  · simp [Html.build_certifications, hdash]
  · simp [Html.build_languages, hdash]
  · have hfold := foldl_eduStep_inert (splitLinesL (stripL raw.data)) Html.initEdu hl2
    simp only [Html.build_education, Html.eduDegrees]
    rw [hfold]
    rfl
  · have hfold := foldl_workStep_inert (splitLinesL (stripL raw.data)) Html.initWork hl2
    simp only [Html.build_work, Html.renderWork, Html.workParsed]
    rw [hfold]
    rfl
  · simp [Tex.build_skills, hdash]
    rfl
  · simp [Tex.build_certifications, hdash]
    rfl
  · simp [Tex.build_languages, hdash]
    rfl
  · have hpos : splitPatGo Tex.subsubSplitStep raw.data.length raw.data [] = [raw.data] := by
      simpa using splitPatGo_no_match Tex.subsubSplitStep raw.data raw.data.length []
        (Nat.le_refl _) hnosubsub
    simp only [Tex.build_experience]
    rw [hpos]
    rfl
  · have hparts : splitPatGo Tex.subSplitStep raw.data.length raw.data [] = [raw.data] := by
      simpa using splitPatGo_no_match Tex.subSplitStep raw.data raw.data.length []
        (Nat.le_refl _) hnosub
    have hnb : ∀ s ∈ Tex.texEduLines (stripL raw.data), occursB "<b>".data s = false := by
      intro s hs
      rw [Tex.texEduLines, List.mem_filter, List.mem_map] at hs
      obtain ⟨⟨l, hl, rfl⟩, _⟩ := hs
      have h2 := hl2 l hl
      rw [inertLine, Bool.and_eq_true] at h2
      exact occursB_head_false rfl h2.1
    have hentry : Tex.texEduEntry (stripL raw.data) = none := by
      cases hlines : Tex.texEduLines (stripL raw.data) with
      | nil => rw [Tex.texEduEntry, hlines]
      | cons univ rest =>
        have hscan : (Tex.texEduScan rest).1 = [] := by
          refine texEduScan_fst rest (fun l hl => hnb l ?_)
          rw [hlines]
          simp [hl]
        rw [Tex.texEduEntry, hlines]
        simp only [hscan, if_pos]
    simp only [Tex.build_education, Tex.texEduParts]
    rw [hparts]
    by_cases hsr : (stripL raw.data).isEmpty = true
    · simp [hsr]
      rfl
    · simp [hsr, hentry]
      rfl

/-- Witness for C9: a body of two plain prose lines drives every builder
to its fallback. -/
theorem c9_builders_total_on_inert_witness :
    Html.build_skills "plain text\nno markup here"
        = "<div class=\"item\"><em>" ++ "plain text\nno markup here" ++ "</em></div>"
      ∧ Html.build_certifications "plain text\nno markup here" = "<li>No certifications listed</li>"
      ∧ Html.build_languages "plain text\nno markup here" = "<li>No languages listed</li>"
      ∧ Html.build_education "plain text\nno markup here"
          = "<ul class=\"list-unstyled resume-education-list\">\n<li>No education info</li>\n</ul>"
      ∧ Html.build_work "plain text\nno markup here"
          = "<div class=\"item mb-3\"><em>No work experience parsed.</em></div>"
      ∧ Tex.build_skills "plain text\nno markup here" = ""
      ∧ Tex.build_certifications "plain text\nno markup here" = ""
      ∧ Tex.build_languages "plain text\nno markup here" = ""
      ∧ Tex.build_experience "plain text\nno markup here" = ""
      ∧ Tex.build_education "plain text\nno markup here" = "" := by
  exact c9_builders_total_on_inert "plain text\nno markup here"
    (by decide) (by decide) (by rfl) (by rfl)

/-- A pattern is a prefix of itself extended. -/
theorem isPrefixOf_self_append (a X : List Char) : a.isPrefixOf (a ++ X) = true := by
  rw [List.isPrefixOf_iff_prefix]
  exact List.prefix_append a X

/-- takeWhile runs through a satisfying block and stops at a failing
head. -/
theorem takeWhile_all_append {p : Char → Bool} :
    ∀ (a : List Char) (c : Char) (r : List Char), a.all p = true → p c = false →
      (a ++ c :: r).takeWhile p = a := by
  intro a
  induction a with
  | nil => intro c r _ hc; simp [List.takeWhile_cons, hc]
  | cons x a ih =>
    intro c r ha hc
    rw [List.all_cons, Bool.and_eq_true] at ha
    simp [List.takeWhile_cons, ha.1, ih c r ha.2 hc]

/-- dropWhile runs through a satisfying block and stops at a failing
head. -/
theorem dropWhile_all_append {p : Char → Bool} :
    ∀ (a : List Char) (c : Char) (r : List Char), a.all p = true → p c = false →
      (a ++ c :: r).dropWhile p = c :: r := by
  intro a
  induction a with
  | nil => intro c r _ hc; simp [List.dropWhile_cons, hc]
  | cons x a ih =>
    intro c r ha hc
    rw [List.all_cons, Bool.and_eq_true] at ha
    simp [List.dropWhile_cons, ha.1, ih c r ha.2 hc]

/-- The head surviving dropWhile fails the predicate. -/
theorem dropWhile_head_false {p : Char → Bool} :
    ∀ {l : List Char} {c : Char} {t : List Char}, l.dropWhile p = c :: t → p c = false := by
  intro l
  induction l with
  | nil => intro c t h; exact absurd h (by simp)
  | cons x l ih =>
    intro c t h
    rw [List.dropWhile_cons] at h
    split at h
    · exact ih h
    · injection h with h1 _
      subst h1
      exact Bool.of_not_eq_true (by assumption)

/-- dropWhile keeps something when some element fails the predicate. -/
theorem dropWhile_ne_nil_of_any {p : Char → Bool} :
    ∀ {l : List Char}, l.any (fun c => !p c) = true → l.dropWhile p ≠ [] := by
  intro l
  induction l with
  | nil => intro h; simp at h
  | cons x l ih =>
    intro h
    rw [List.dropWhile_cons]
    split
    · refine ih ?_
      rw [List.any_cons] at h
      rcases Bool.or_eq_true _ _ |>.mp h with h' | h'
      · simp_all
      · exact h'
    · simp

/-- What takeWhile keeps satisfies the predicate. -/
theorem all_takeWhile {p : Char → Bool} : ∀ (l : List Char), (l.takeWhile p).all p = true := by
  intro l
  induction l with
  | nil => rfl
  | cons x l ih =>
    rw [List.takeWhile_cons]
    split
    · rw [List.all_cons, Bool.and_eq_true]
      exact ⟨by assumption, ih⟩
    · rfl

/-- Word characters are not whitespace. -/
theorem isWordChar_not_space {c : Char} (h : isWordChar c = true) : isSpaceChar c = false := by
  cases hs : isSpaceChar c with
  | false => rfl
  | true =>
    exfalso
    have hc : c = ' ' ∨ c = '\t' ∨ c = '\n' ∨ c = '\r' ∨ c = '\x0b' ∨ c = '\x0c' := by
      rw [isSpaceChar] at hs
      have := by simpa [Bool.or_eq_true, decide_eq_true_eq] using hs
      tauto
    rcases hc with rfl | rfl | rfl | rfl | rfl | rfl <;> exact absurd h (by decide)

/-- The section matcher succeeds on a well-shaped header: a space, a
nonempty word-character name, a space, a title holding a non-whitespace
character and no newline, the newline, and a body whose capture stops
exactly at the trailing comment terminator. -/
theorem sectionStep_at (nm title body : List Char)
    (hnm1 : nm ≠ []) (hnm2 : nm.all isWordChar = true)
    (ht1 : title.any (fun c => !isSpaceChar c) = true)
    (ht2 : title.all (fun c => c != '\n') = true)
    (hbody : Html.sectionBodySplit (body ++ "*/".data) = some (body, "*/".data)) :
    Html.sectionStep ("@section".data ++ ' ' :: (nm ++ ' ' :: (title ++ '\n' :: (body ++ "*/".data))))
      = some ((nm, body), "*/".data) := by
  obtain ⟨n0, nm', rfl⟩ : ∃ n0 nm', nm = n0 :: nm' := by
    cases nm with
    | nil => exact absurd rfl hnm1
    | cons a b => exact ⟨a, b, rfl⟩
  have hn0w : isWordChar n0 = true := by
    rw [List.all_cons, Bool.and_eq_true] at hnm2
    exact hnm2.1
  have hn0 : isSpaceChar n0 = false := isWordChar_not_space hn0w
  rw [Html.sectionStep, if_pos (isPrefixOf_self_append _ _),
    show (8 : Nat) = ("@section".data : List Char).length from rfl, List.drop_left]
  have hws1 : (' ' :: ((n0 :: nm') ++ ' ' :: (title ++ '\n' :: (body ++ "*/".data)))).takeWhile isSpaceChar
      = [' '] := by
    rw [show (' ' :: ((n0 :: nm') ++ ' ' :: (title ++ '\n' :: (body ++ "*/".data))))
        = [' '] ++ (n0 :: (nm' ++ ' ' :: (title ++ '\n' :: (body ++ "*/".data)))) from by simp,
      takeWhile_all_append _ _ _ (by decide) hn0]
  have hr1 : (' ' :: ((n0 :: nm') ++ ' ' :: (title ++ '\n' :: (body ++ "*/".data)))).dropWhile isSpaceChar
      = n0 :: (nm' ++ ' ' :: (title ++ '\n' :: (body ++ "*/".data))) := by
    rw [show (' ' :: ((n0 :: nm') ++ ' ' :: (title ++ '\n' :: (body ++ "*/".data))))
        = [' '] ++ (n0 :: (nm' ++ ' ' :: (title ++ '\n' :: (body ++ "*/".data)))) from by simp,
      dropWhile_all_append _ _ _ (by decide) hn0]
  have hnmtk : (n0 :: (nm' ++ ' ' :: (title ++ '\n' :: (body ++ "*/".data)))).takeWhile isWordChar
      = n0 :: nm' := by
    rw [show (n0 :: (nm' ++ ' ' :: (title ++ '\n' :: (body ++ "*/".data))))
        = (n0 :: nm') ++ ' ' :: (title ++ '\n' :: (body ++ "*/".data)) from by simp,
      takeWhile_all_append _ _ _ hnm2 (by decide)]
  have hnmdp : (n0 :: (nm' ++ ' ' :: (title ++ '\n' :: (body ++ "*/".data)))).dropWhile isWordChar
      = ' ' :: (title ++ '\n' :: (body ++ "*/".data)) := by
    rw [show (n0 :: (nm' ++ ' ' :: (title ++ '\n' :: (body ++ "*/".data))))
        = (n0 :: nm') ++ ' ' :: (title ++ '\n' :: (body ++ "*/".data)) from by simp,
      dropWhile_all_append _ _ _ hnm2 (by decide)]
  obtain ⟨d, t2, hd⟩ : ∃ d t2, title.dropWhile isSpaceChar = d :: t2 := by
    cases hdw : title.dropWhile isSpaceChar with
    | nil => exact absurd hdw (dropWhile_ne_nil_of_any ht1)
    | cons a b => exact ⟨a, b, rfl⟩
  have hdns : isSpaceChar d = false := dropWhile_head_false hd
  have htitle : title = title.takeWhile isSpaceChar ++ d :: t2 := by
    rw [← hd, List.takeWhile_append_dropWhile]
  have hr3 : (' ' :: (title ++ '\n' :: (body ++ "*/".data))).dropWhile isSpaceChar
      = d :: (t2 ++ '\n' :: (body ++ "*/".data)) := by
    rw [show (' ' :: (title ++ '\n' :: (body ++ "*/".data)))
        = ([' '] ++ title.takeWhile isSpaceChar) ++ d :: (t2 ++ '\n' :: (body ++ "*/".data)) from by
        conv_lhs => rw [htitle]
        simp,
      dropWhile_all_append _ _ _ ?hall hdns]
    case hall =>
      rw [List.all_append]
      exact Bool.and_eq_true _ _ |>.mpr ⟨by decide, all_takeWhile _⟩
  have hnl : (d :: (t2 ++ '\n' :: (body ++ "*/".data))).dropWhile (fun c => c != '\n')
      = '\n' :: (body ++ "*/".data) := by
    rw [show (d :: (t2 ++ '\n' :: (body ++ "*/".data)))
        = (d :: t2) ++ '\n' :: (body ++ "*/".data) from by simp,
      dropWhile_all_append _ _ _ ?hall2 (by decide)]
    case hall2 =>
      have : (d :: t2).all (fun c => c != '\n') = true := by
        have hsub : ∀ x ∈ d :: t2, x ∈ title := by
          intro x hx
          rw [htitle]
          simp [hx]
        rw [List.all_eq_true] at ht2 ⊢
        exact fun x hx => ht2 x (hsub x hx)
      exact this
  dsimp only
  rw [hws1, hr1, hnmtk, hnmdp, hr3]
  rw [if_neg (by
    rintro (h | h | h | h)
    · exact absurd h (by simp)
    · exact absurd h (by simp)
    · simp [List.takeWhile_cons, show isSpaceChar ' ' = true from rfl] at h
    · exact absurd h (by simp))]
  rw [hnl]
  simp only [hbody]

/-- Scanning past positions where the matcher fails just spends fuel. -/
theorem findPatGo_skip {α : Type} (step : List Char → Option (α × List Char)) :
    ∀ (pre X : List Char) (f : Nat),
      (∀ t ∈ pre.tails, t = [] ∨ step (t ++ X) = none) →
      findPatGo step f (pre ++ X) = findPatGo step (f - pre.length) X := by
  intro pre
  induction pre with
  | nil => intro X f _; simp
  | cons c pre' ih =>
    intro X f h
    cases f with
    | zero =>
      show findPatGo step 0 ((c :: pre') ++ X) = findPatGo step (0 - (pre'.length + 1)) X
      rw [Nat.zero_sub]
      cases X <;> rfl
    | succ f =>
      have hstep : step (c :: (pre' ++ X)) = none := by
        rcases h (c :: pre') (by rw [List.mem_tails] : (c :: pre') ∈ (c :: pre').tails) with h' | h'
        · exact absurd h' (by simp)
        · exact h'
      rw [show (c :: pre') ++ X = c :: (pre' ++ X) from rfl, findPatGo, hstep,
        ih X f (fun u hu => h u (by rw [List.tails_cons]; simp [hu]))]
      have harith : f + 1 - (c :: pre').length = f - pre'.length := by
        rw [List.length_cons]
        omega
      rw [harith]

/-- After the single section the scan sees only the comment terminator
and finds nothing more. -/
theorem findPatGo_endtoken : ∀ f : Nat, findPatGo Html.sectionStep f ("*/".data) = [] := by
  intro f
  cases f with
  | zero => rfl
  | succ f =>
    rw [show ("*/".data : List Char) = '*' :: ('/' :: []) from rfl, findPatGo,
      show Html.sectionStep ('*' :: ('/' :: [])) = none from rfl]
    cases f with
    | zero => rfl
    | succ f =>
      rw [findPatGo, show Html.sectionStep ('/' :: []) = none from rfl]
      cases f <;> rfl

/-- C8 counterexample: the lazily captured body must be followed by a
further section header or by the comment terminator, not by the end of
the document.  A document whose final section is followed by neither
loses that section entirely (first two conjuncts, for both scripts),
while the same document closed by the comment terminator keeps it. -/
theorem c8_counterexample :
    Html.extract_sections "@section a T\nbody" = []
      ∧ Tex.extract_sections "@section a T\nbody" = []
      ∧ Html.extract_sections "@section a T\nbody*/" = [("a", "body")] := by
  refine ⟨by rfl, by rfl, by rfl⟩

/-- C8 amended: for a document consisting of a prefix in which no section
match starts, one section header (whitespace, a word-character key,
whitespace, a title line with visible content), a body in which neither a
section header nor the comment terminator occurs, and the closing
comment terminator, both extract_sections functions map the key to the
cleaned body: the capture runs from the line after the header up to the
next section header or the comment terminator, so the final section of a
document appears provided the document ends with the comment terminator
(and is dropped otherwise, see the counterexample). -/
theorem c8_section_capture (pre nm title body : String)
    (hnm1 : nm.data ≠ [])
    (hnm2 : nm.data.all isWordChar = true)
    (ht1 : title.data.any (fun c => !isSpaceChar c) = true)
    (ht2 : title.data.all (fun c => c != '\n') = true)
    (hbody : Html.sectionBodySplit (body.data ++ "*/".data) = some (body.data, "*/".data))
    (hpre : ∀ t ∈ pre.data.tails, t = []
      ∨ Html.sectionStep (t ++ ("@section".data
          ++ ' ' :: (nm.data ++ ' ' :: (title.data ++ '\n' :: (body.data ++ "*/".data))))) = none) :
    Html.extract_sections (pre ++ "@section " ++ nm ++ " " ++ title ++ "\n" ++ body ++ "*/")
        = [(stripS nm, String.mk (Html.strip_internal_tagsL (stripNlL (stripL body.data))))]
      ∧ Tex.extract_sections (pre ++ "@section " ++ nm ++ " " ++ title ++ "\n" ++ body ++ "*/")
        = [(stripS nm, stripS body)] := by
  have hdata : (pre ++ "@section " ++ nm ++ " " ++ title ++ "\n" ++ body ++ "*/").data
      = pre.data ++ ("@section".data
          ++ ' ' :: (nm.data ++ ' ' :: (title.data ++ '\n' :: (body.data ++ "*/".data)))) := by
    simp [String.data_append, List.append_assoc]
  have hstep := sectionStep_at nm.data title.data body.data hnm1 hnm2 ht1 ht2 hbody
  have hraw : Html.extractSectionsRaw
      (pre ++ "@section " ++ nm ++ " " ++ title ++ "\n" ++ body ++ "*/").data
      = [(nm.data, body.data)] := by
    rw [Html.extractSectionsRaw, hdata, findPatGo_skip Html.sectionStep _ _ _ hpre]
    have hfuel : (pre.data ++ ("@section".data
        ++ ' ' :: (nm.data ++ ' ' :: (title.data ++ '\n' :: (body.data ++ "*/".data))))).length
          - pre.data.length
        = ("@section".data
          ++ ' ' :: (nm.data ++ ' ' :: (title.data ++ '\n' :: (body.data ++ "*/".data)))).length := by
      rw [List.length_append]
      omega
    rw [hfuel]
    rw [show ("@section".data
        ++ ' ' :: (nm.data ++ ' ' :: (title.data ++ '\n' :: (body.data ++ "*/".data))))
      = '@' :: ("section".data
        ++ ' ' :: (nm.data ++ ' ' :: (title.data ++ '\n' :: (body.data ++ "*/".data)))) from rfl]
    rw [List.length_cons, findPatGo]
    rw [show Html.sectionStep ('@' :: ("section".data
        ++ ' ' :: (nm.data ++ ' ' :: (title.data ++ '\n' :: (body.data ++ "*/".data)))))
      = some ((nm.data, body.data), "*/".data) from hstep]
    dsimp only
    rw [findPatGo_endtoken]
  constructor
  · rw [Html.extract_sections, hraw]
    rfl
  · rw [Tex.extract_sections, hraw]
    rfl

/-- Witness for the amended C8: a one-section document with a prefix, a
key, a title, and a two-line body, captured for both scripts. -/
theorem c8_section_capture_witness :
    Html.extract_sections ("intro " ++ "@section " ++ "skills" ++ " " ++ "Skills"
        ++ "\n" ++ "line one\nline two\n" ++ "*/")
        = [(stripS "skills",
            String.mk (Html.strip_internal_tagsL (stripNlL (stripL "line one\nline two\n".data))))]
      ∧ Tex.extract_sections ("intro " ++ "@section " ++ "skills" ++ " " ++ "Skills"
          ++ "\n" ++ "line one\nline two\n" ++ "*/")
        = [(stripS "skills", stripS "line one\nline two\n")] := by
  exact c8_section_capture "intro " "skills" "Skills" "line one\nline two\n"
    (by decide) (by decide) (by decide) (by decide) (by rfl) (by decide)
